import Mathlib

/-!
Verification of the LolRemez core against its natural-language
specification.

The development shallowly embeds three parts of the program over exact
rational arithmetic (the arbitrary-precision big-real type is external to
the repository; it is modelled by the field of rationals, with division
total as in Lean, and with the transcendental operations kept abstract as
parameters where they matter):

1. the dense linear-system inverse of src/src/matrix.h;
2. the Remez solver driver of the solver implementation file
   (remez_init, remez_step, find_zeros, find_extrema, do_init, do_step,
   and the per-bracket worker steps), sequentialised per index: the
   worker-pool protocol serialises every bracket index, each bracket is
   refined independently of the others, and the answer arrival order
   only permutes independent writes, so the phase result is the
   deterministic per-index iteration embedded here, with the random
   tie-break factor passed in as an explicit parameter;
3. the PEG expression compiler and the stack-machine evaluator of
   src/src/expression.h, with one parser function per grammar rule and
   the grammar actions applied on rule success.
-/

/-- Finite sum of f i over i below n, written as the accumulation loops of
the source use it. -/
def sumRange (n : ℕ) (f : ℕ → ℚ) : ℚ :=
  (List.range n).foldl (fun acc i => acc + f i) 0

namespace LinSys

/-- Square big-real matrices are embedded as lists of rows of rationals. -/
abbrev Mat := List (List ℚ)

/-- Entry access a[i][j] with the out-of-range default 0. -/
def entry (m : Mat) (i j : ℕ) : ℚ := (m.getD i []).getD j 0

/-- linear_system init with x on the diagonal; b.init(1) builds the identity. -/
def idMat (n : ℕ) : Mat :=
  (List.range n).map (fun j => (List.range n).map (fun i => if i = j then (1 : ℚ) else 0))

/-- Row operation a[i][k] += a[j][k] for all k. -/
def rowAdd (m : Mat) (i j : ℕ) : Mat :=
  m.set i (List.zipWith (fun p q => p + q) (m.getD i []) (m.getD j []))

/-- Row operation m[j][k] -= mul * m[i][k] for all k. -/
def rowSubMul (m : Mat) (j i : ℕ) (mul : ℚ) : Mat :=
  m.set j (List.zipWith (fun p q => p - mul * q) (m.getD j []) (m.getD i []))

/-- Row operation m[i][k] *= x for all k. -/
def rowScale (m : Mat) (i : ℕ) (x : ℚ) : Mat :=
  m.set i ((m.getD i []).map (fun v => v * x))

/-- The scan over candidate rows: skip rows whose entry in column i is
zero, return the first one with a nonzero entry. -/
def scanRow (a : Mat) (i : ℕ) : List ℕ → Option ℕ
  | [] => none
  | j :: t => if entry a j i = 0 then scanRow a i t else some j

/-- The scan for the first row j greater than i with a[j][i] nonzero. -/
def findAddRow (a : Mat) (i : ℕ) : Option ℕ :=
  scanRow a i ((List.range a.length).drop (i + 1))

/-- If the diagonal term a[i][i] is zero, add the first later row with a
nonzero entry in column i into row i, in both matrices; otherwise leave
the pair unchanged. -/
def pivotFix (ab : Mat × Mat) (i : ℕ) : Mat × Mat :=
  if entry ab.1 i i = 0 then
    match findAddRow ab.1 i with
    | some j => (rowAdd ab.1 i j, rowAdd ab.2 i j)
    | none => ab
  else ab

/-- For every row j other than i, subtract mul = x * a[j][i] times row i
from row j, in both matrices. -/
def elimOthers (ab : Mat × Mat) (i : ℕ) (x : ℚ) : Mat × Mat :=
  (List.range ab.1.length).foldl
    (fun p j =>
      if j = i then p
      else
        let mul := x * entry p.1 j i
        (rowSubMul p.1 j i mul, rowSubMul p.2 j i mul))
    ab

/-- One column pass of the inversion loop: fix the pivot by row addition
if needed, take x = 1 / a[i][i] unconditionally, eliminate column i in
the other rows, and scale row i by x. -/
def invStep (ab : Mat × Mat) (i : ℕ) : Mat × Mat :=
  let ab1 := pivotFix ab i
  let x := 1 / entry ab1.1 i i
  let ab2 := elimOthers ab1 i x
  (rowScale ab2.1 i x, rowScale ab2.2 i x)

/-- The pair (a, b) after the first i column passes, starting from a copy
of m and the identity. -/
def abAfter (m : Mat) (i : ℕ) : Mat × Mat :=
  (List.range i).foldl invStep (m, idMat m.length)

/-- linear_system inverse: run all n column passes and return b. The
function is total: no error value exists anywhere in this code path. -/
def inverse (m : Mat) : Mat := (abAfter m m.length).2

/-- The pivot value the scale step divides by at column i: the diagonal
term after the row-addition fix-up. -/
def pivotAt (m : Mat) (i : ℕ) : ℚ := entry (pivotFix (abAfter m i) i).1 i i

/-- The scale factor x computed at column i. -/
def scaleAt (m : Mat) (i : ℕ) : ℚ := 1 / pivotAt m i

/-- True when some column pass reaches the scale step with a zero
diagonal term, i.e. the matrix is singular for this elimination. -/
def hitsZeroPivot (m : Mat) : Prop :=
  ∃ i < m.length, pivotAt m i = 0

/-- Matrix product of two n by n matrices; specification-side definition
used to state what the computed matrix is or fails to be. -/
def matMul (n : ℕ) (a b : Mat) : Mat :=
  (List.range n).map (fun i =>
    (List.range n).map (fun j => sumRange n (fun k => entry a i k * entry b k j)))

end LinSys

namespace Remez

/-- A bracket point: abscissa and error value, as in the solver point
struct. The big-real fields are embedded as rationals; a default
constructed big-real is zero. -/
structure Point where
  x : ℚ
  err : ℚ
deriving DecidableEq

/-- One bracket record: the three points of a zeros_state or
extrema_state slot, indexed 0, 1, 2 in the source. -/
structure Bracket where
  p0 : Point
  p1 : Point
  p2 : Point
deriving DecidableEq

def defPoint : Point := { x := 0, err := 0 }

def defBracket : Bracket := { p0 := defPoint, p1 := defPoint, p2 := defPoint }

/-- The root_finder enumeration of solver.h. -/
inductive RootFinder
  | bisect
  | regula_falsi
  | illinois
  | pegasus
  | ford
deriving DecidableEq

/-- Modelled from the spec, section 3: the external lol polynomial type is
a finite ordered sequence of coefficients c0..cd with
eval(x) = sum of ci * x^i, written here in Horner form. -/
def polyEval (p : List ℚ) (x : ℚ) : ℚ := p.foldr (fun c acc => c + x * acc) 0

/-- Modelled from the spec, section 3: coefficient-wise polynomial
addition, keeping the longer coefficient list. -/
def polyAdd : List ℚ → List ℚ → List ℚ
  | p, [] => p
  | [], q => q
  | c :: p, d :: q => (c + d) :: polyAdd p q

/-- Modelled from the spec, section 3: scalar multiplication. -/
def polySmul (c : ℚ) (p : List ℚ) : List ℚ := p.map (fun a => c * a)

/-- Multiplication by x, used by the Chebyshev recurrence. -/
def polyMulX (p : List ℚ) : List ℚ := 0 :: p

def polySub (p q : List ℚ) : List ℚ := polyAdd p (polySmul (-1) q)

/-- Modelled from the spec, section 3: the chebyshev(n) factory with
T0 = 1, T1 = x and the recurrence T(n+1) = 2x T(n) - T(n-1). -/
def cheb : ℕ → List ℚ
  | 0 => [1]
  | 1 => [0, 1]
  | n + 2 => polySub (polySmul 2 (polyMulX (cheb (n + 1)))) (cheb n)

/-- The sign function of the big-real library: -1, 0 or 1. -/
def sgn (q : ℚ) : ℚ := if 0 < q then 1 else if q < 0 then -1 else 0

/-- std vector resize for big-real vectors: keep the first n entries, pad
with default-constructed (zero) values. -/
def vresize (l : List ℚ) (n : ℕ) : List ℚ :=
  l.take n ++ List.replicate (n - l.length) 0

/-- std vector resize for bracket vectors. -/
def vresizeB (l : List Bracket) (n : ℕ) : List Bracket :=
  l.take n ++ List.replicate (n - l.length) defBracket

/-- The remez_solver state. The expression members m_func and m_weight
enter the solver only through their eval method, which is deterministic
and pure, so they are embedded as rational functions. The order and
digits members are C++ ints used only with non-negative values. -/
structure SolverState where
  order : ℕ := 4
  digits : ℕ := 40
  xmin : ℚ := -1
  xmax : ℚ := 1
  func : ℚ → ℚ
  weight : ℚ → ℚ := fun _ => 0
  has_weight : Bool := false
  rf : RootFinder := RootFinder.pegasus
  estimate : List ℚ := []
  zeros : List ℚ := []
  control : List ℚ := []
  k1 : ℚ := 0
  k2 : ℚ := 0
  epsilon : ℚ := 0
  error : ℚ := 0
  zeros_state : List Bracket := []
  extrema_state : List Bracket := []

def eval_estimate (s : SolverState) (x : ℚ) : ℚ := polyEval s.estimate x

def eval_func (s : SolverState) (x : ℚ) : ℚ := s.func (x * s.k2 + s.k1)

def eval_weight (s : SolverState) (x : ℚ) : ℚ :=
  if s.has_weight then s.weight (x * s.k2 + s.k1) else 1

def eval_error (s : SolverState) (x : ℚ) : ℚ :=
  |(eval_estimate s x - eval_func s x) / eval_weight s x|

/-- The initial abscissae of remez_init: (2i - N) / (N + 1) for i = 0..N,
with the integer arithmetic of the source. -/
def initNodes (n : ℕ) : List ℚ :=
  (List.range (n + 1)).map
    (fun (i : ℕ) => (((2 * (i : ℤ) - (n : ℤ) : ℤ)) : ℚ) / ((n : ℚ) + 1))

/-- The Chebyshev evaluation matrix of remez_init: row i holds the
evaluations of the abscissa x_i for polynomial order c = 0, 1, ... -/
def chebMat (n : ℕ) (xs : List ℚ) : LinSys.Mat :=
  (List.range (n + 1)).map (fun i =>
    (List.range (n + 1)).map (fun c => polyEval (cheb c) (xs.getD i 0)))

/-- The estimate rebuild loop shared by remez_init and remez_step: for
each order n below m, accumulate weight * chebyshev(n) where weight is
the dot product of row n of the inverted system with the f values. -/
def buildEstimate (m : ℕ) (inv : LinSys.Mat) (fxn : List ℚ) : List ℚ :=
  (List.range m).foldl
    (fun acc n =>
      polyAdd acc
        (polySmul (sumRange fxn.length (fun i => LinSys.entry inv n i * fxn.getD i 0))
          (cheb n)))
    []

/-- remez_init: resize the state vectors, place the initial zero
estimates, build and invert the Chebyshev system and assemble the first
polynomial estimate. -/
def remez_init (s : SolverState) : SolverState :=
  let zs := initNodes s.order
  let fxn := zs.map (eval_func s)
  let inv := LinSys.inverse (chebMat s.order zs)
  { s with
      zeros := zs,
      zeros_state := vresizeB s.zeros_state (s.order + 1),
      control := vresize s.control (s.order + 2),
      extrema_state := vresizeB s.extrema_state (s.order + 2),
      estimate := buildEstimate (s.order + 1) inv fxn }

/-- do_init: fix k1, k2 and epsilon = 10^-(digits+2), then run
remez_init. -/
def do_init (s : SolverState) : SolverState :=
  remez_init
    { s with
        k1 := (s.xmax + s.xmin) / 2,
        k2 := (s.xmax - s.xmin) / 2,
        epsilon := ((10 : ℚ) ^ (s.digits + 2))⁻¹ }

/-- The (N+2) by (N+2) system of remez_step: columns 0..N are Chebyshev
evaluations at the control points, column N+1 is the oscillating
weighted error with sign (-1)^(i+1). -/
def stepMat (s : SolverState) : LinSys.Mat :=
  (List.range (s.order + 2)).map (fun i =>
    (List.range (s.order + 2)).map (fun c =>
      if c = s.order + 1 then
        if i % 2 = 1 then |eval_weight s (s.control.getD i 0)|
        else -|eval_weight s (s.control.getD i 0)|
      else polyEval (cheb c) (s.control.getD i 0)))

/-- remez_step: rebuild the estimate from the inverted control-point
system. The leveled-error row product the source also computes is local
to the function, marked FIXME unused, and discarded, so m_error is not
modified here. -/
def remez_step (s : SolverState) : SolverState :=
  let fxn := (List.range (s.order + 2)).map (fun i => eval_func s (s.control.getD i 0))
  let inv := LinSys.inverse (stepMat s)
  { s with estimate := buildEstimate (s.order + 1) inv fxn }

/-- The bracket initialisation of find_zeros for index i, written as the
sequence of assignments of the source. The source declares the reference
a as slot 0 of the record, b as slot 1, and c as slot 1 as well, so c
aliases b and the final assignment c.err = 0 overwrites the err of slot
1 while slot 2 keeps its previous contents. -/
def zeroInitBracket (s : SolverState) (i : ℕ) (old : Bracket) : Bracket :=
  let ax := s.control.getD i 0
  let aerr := eval_estimate s ax - eval_func s ax
  let bx := s.control.getD (i + 1) 0
  let berr := eval_estimate s bx - eval_func s bx
  let br1 := { old with p0 := { x := ax, err := aerr } }
  let br2 := { br1 with p1 := { br1.p1 with x := bx } }
  let br3 := { br2 with p1 := { br2.p1 with err := berr } }
  { br3 with p1 := { br3.p1 with err := 0 } }

/-- The initialisation loop of find_zeros over the N+1 brackets. -/
def find_zeros_init (s : SolverState) : SolverState :=
  { s with
      zeros_state :=
        (List.range (s.order + 1)).foldl
          (fun zs i => zs.set i (zeroInitBracket s i (zs.getD i defBracket)))
          s.zeros_state }

/-- One worker root-finding step on a zeros_state bracket: compute the
candidate from the selected root finder, evaluate its error, classify
the endpoints by sign against the candidate, apply the selected
dampening to the differing endpoint when the candidate error keeps the
sign of the previous candidate error, and store the candidate in the
same-sign endpoint slot and in slot 2. -/
def zeroStep (s : SolverState) (br : Bracket) : Bracket :=
  let a := br.p0
  let b := br.p1
  let old_c_err := br.p2.err
  let cx :=
    if s.rf = RootFinder.bisect then (a.x + b.x) / 2
    else a.x - a.err * (b.x - a.x) / (b.err - a.err)
  let cerr := eval_estimate s cx - eval_func s cx
  let c : Point := { x := cx, err := cerr }
  let dampen : ℚ → ℚ → ℚ := fun pderr pserr =>
    if sgn cerr * sgn old_c_err > 0 then
      match s.rf with
      | RootFinder.illinois => pderr / 2
      | RootFinder.pegasus => pderr * (old_c_err / (old_c_err + cerr))
      | RootFinder.ford => pderr * (1 - cerr / pserr - cerr / pderr)
      | _ => pderr
    else pderr
  if sgn a.err * sgn cerr > 0 then
    { p0 := c, p1 := { b with err := dampen b.err a.err }, p2 := c }
  else
    { p0 := { a with err := dampen a.err b.err }, p1 := c, p2 := c }

/-- The consumption test of the find_zeros driver loop: the bracket is
done when c.err is zero or the bracket width is within epsilon. -/
def zeroBracketDone (s : SolverState) (br : Bracket) : Prop :=
  br.p2.err = 0 ∨ |br.p0.x - br.p1.x| ≤ s.epsilon

instance (s : SolverState) (br : Bracket) : Decidable (zeroBracketDone s br) := by
  unfold zeroBracketDone; infer_instance

/-- Per-index iteration of find_zeros: the worker performs one step, the
driver tests the bracket and reposts the index until done. The fuel
bounds the number of steps; the source has no such bound. -/
def refineZeroBracket (s : SolverState) : ℕ → Bracket → Option Bracket
  | 0, _ => none
  | fuel + 1, br =>
    let br1 := zeroStep s br
    if zeroBracketDone s br1 then some br1 else refineZeroBracket s fuel br1

/-- find_zeros: initialise the N+1 brackets, then refine each to
completion and record c.x as the zero. The worker-pool protocol
serialises each index and indices are independent, so the concurrent
phase equals this per-index sequential iteration. -/
def find_zeros (fuel : ℕ) (s : SolverState) : Option SolverState :=
  let s0 := find_zeros_init s
  (List.range (s0.order + 1)).foldlM
    (fun st i =>
      match refineZeroBracket st fuel (st.zeros_state.getD i defBracket) with
      | none => none
      | some br =>
          some
            { st with
                zeros_state := st.zeros_state.set i br,
                zeros := st.zeros.set i br.p2.x })
    s0

/-- The bracket initialisation of find_extrema for index i: the bracket
spans adjacent zeros (with -1 and 1 at the ends) and the third point is
placed at a pseudo-random interior position; u i stands for the
rand(0.4, 0.6) draw. -/
def extremaInitBracket (s : SolverState) (u : ℕ → ℚ) (i : ℕ) : Bracket :=
  let ax := if i = 0 then (-1 : ℚ) else s.zeros.getD (i - 1) 0
  let bx := if i = s.order + 1 then (1 : ℚ) else s.zeros.getD i 0
  let cx := ax + (bx - ax) * u i
  { p0 := { x := ax, err := eval_error s ax },
    p1 := { x := bx, err := eval_error s bx },
    p2 := { x := cx, err := eval_error s cx } }

/-- The entry phase of find_extrema: clamp control[0] to -1 and
control[N+1] to 1, reset the observed error, and initialise the N+2
brackets. -/
def find_extrema_init (u : ℕ → ℚ) (s : SolverState) : SolverState :=
  let s1 := { s with control := (s.control.set 0 (-1)).set (s.order + 1) 1, error := 0 }
  { s1 with
      extrema_state :=
        (List.range (s1.order + 2)).foldl
          (fun es i => es.set i (extremaInitBracket s1 u i))
          s1.extrema_state }

/-- One worker step of successive parabolic interpolation on an
extrema_state bracket. -/
def extremaStep (s : SolverState) (br : Bracket) : Bracket :=
  let a := br.p0
  let b := br.p1
  let c := br.p2
  let d1 := c.x - a.x
  let d2 := c.x - b.x
  let k1 := d1 * (c.err - b.err)
  let k2 := d2 * (c.err - a.err)
  let dx0 := c.x - (d1 * k1 - d2 * k2) / (k1 - k2) / 2
  let dx := if dx0 ≤ a.x ∨ dx0 ≥ b.x then (a.x + b.x) / 2 else dx0
  let d : Point := { x := dx, err := eval_error s dx }
  if d.err < c.err then
    if d.x > c.x then { br with p1 := d } else { br with p0 := d }
  else
    if d.x > c.x then { p0 := c, p1 := b, p2 := d } else { p0 := a, p1 := c, p2 := d }

/-- The consumption test of the find_extrema driver loop. -/
def extremaBracketDone (s : SolverState) (br : Bracket) : Prop :=
  br.p1.x - br.p0.x ≤ s.epsilon

instance (s : SolverState) (br : Bracket) : Decidable (extremaBracketDone s br) := by
  unfold extremaBracketDone; infer_instance

/-- Per-index iteration of find_extrema, one parabolic step per posted
job. -/
def refineExtremaBracket (s : SolverState) : ℕ → Bracket → Option Bracket
  | 0, _ => none
  | fuel + 1, br =>
    let br1 := extremaStep s br
    if extremaBracketDone s br1 then some br1 else refineExtremaBracket s fuel br1

/-- find_extrema: clamp and initialise, then refine all N+2 brackets;
on completion of bracket i record control[i] = c.x and fold the observed
error maximum. Answer arrival order only permutes independent per-index
writes and a commutative maximum, so the phase equals this index-ordered
fold. -/
def find_extrema (fuel : ℕ) (u : ℕ → ℚ) (s : SolverState) : Option SolverState :=
  let s0 := find_extrema_init u s
  (List.range (s0.order + 2)).foldlM
    (fun st i =>
      match refineExtremaBracket st fuel (st.extrema_state.getD i defBracket) with
      | none => none
      | some br =>
          some
            { st with
                extrema_state := st.extrema_state.set i br,
                control := st.control.set i br.p2.x,
                error := if br.p2.err > st.error then br.p2.err else st.error })
    s0

/-- do_step: remember the previous error, run find_extrema then
remez_step, stop when the new observed error is non-negative and within
relative tolerance epsilon of the previous one, otherwise run find_zeros
and continue. The returned flag is the C++ return value; the state makes
the mutation explicit. -/
def do_step (fuel : ℕ) (u : ℕ → ℚ) (s : SolverState) : Option (Bool × SolverState) :=
  let old_error := s.error
  match find_extrema fuel u s with
  | none => none
  | some s1 =>
    let s2 := remez_step s1
    if s2.error ≥ 0 ∧ |s2.error - old_error| < s2.error * s2.epsilon then
      some (false, s2)
    else
      match find_zeros fuel s2 with
      | none => none
      | some s3 => some (true, s3)

/-!
Concrete states used by the claim witnesses and counterexamples below.
The numbers are chosen so that every bracket converges within the given
fuel and no intermediate denominator vanishes.
-/

/-- A solver state after a first iteration: order 1, the estimate is the
polynomial t^2, the target function is the constant 1/8 (so the error
curve is t^2 - 1/8), the interval map is the identity, and the stored
zeros are 1/4 and 1/2. The large epsilon makes every bracket converge
after one worker step. -/
def c4State : SolverState :=
  { order := 1, digits := 3, func := fun _ => 1/8,
    k1 := 0, k2 := 1, epsilon := 2,
    estimate := [0, 0, 1],
    zeros := [1/4, 1/2],
    control := [9, 9, 9],
    zeros_state := [defBracket, defBracket],
    extrema_state := [defBracket, defBracket, defBracket] }

/-- The pseudo-random tie-break draw, fixed at the midpoint value 1/2,
inside the rand(0.4, 0.6) range of the source. -/
def c4u : ℕ → ℚ := fun _ => 1/2

/-- The same state with the previous observed error equal to the error
find_extrema is about to observe, so that the convergence test fires. -/
def c7State : SolverState := { c4State with error := 7/16 }

/-- The state find_extrema 2 c4u c7State computes, written out. -/
def c7After : SolverState :=
  { c7State with
      control := [-11/116, 3/8, 3/4],
      error := 7/16,
      extrema_state :=
        [{ p0 := { x := -3/8, err := 1/64 }, p1 := { x := 1/4, err := 1/16 },
           p2 := { x := -11/116, err := 1561/13456 } },
         { p0 := { x := 7/20, err := 1/400 }, p1 := { x := 1/2, err := 1/8 },
           p2 := { x := 3/8, err := 1/64 } },
         { p0 := { x := 1/2, err := 1/8 }, p1 := { x := 3/4, err := 7/16 },
           p2 := { x := 3/4, err := 7/16 } }] }

/-- A solver state about to run find_zeros: order 1, estimate t, target
t + 3, identity interval map. The third point of each zeros_state slot
still holds err = 7 from an earlier phase. -/
def c1State : SolverState :=
  { order := 1, digits := 3, func := fun t => t + 3,
    k1 := 0, k2 := 1, epsilon := 1/1000,
    estimate := [0, 1],
    control := [0, 1, 2],
    zeros := [0, 0],
    zeros_state :=
      [{ p0 := defPoint, p1 := defPoint, p2 := { x := 0, err := 7 } },
       { p0 := defPoint, p1 := defPoint, p2 := { x := 0, err := 7 } }],
    extrema_state := [] }

/-- A state whose root finder is the default pegasus variant; the
estimate is the zero polynomial and the target is zero, so the
candidate error is 0. -/
def c5State : SolverState :=
  { order := 1, digits := 3, func := fun _ => 0,
    k1 := 0, k2 := 1, epsilon := 1/1000,
    estimate := [], rf := RootFinder.pegasus }

/-- A zeros bracket that has lost its sign change: both endpoint errors
are positive. -/
def c5Bracket : Bracket :=
  { p0 := { x := 0, err := 2 }, p1 := { x := 1, err := 1 }, p2 := { x := 0, err := 0 } }

/-- The same state with the bisect root finder selected. -/
def c5BisectState : SolverState := { c5State with rf := RootFinder.bisect }

/-- A fresh solver state before do_init: order 1, target t^2 on the
identity interval map. -/
def c6State : SolverState :=
  { order := 1, digits := 3, func := fun t => t * t, k1 := 0, k2 := 1 }

end Remez

namespace Expr

/-- The opcode enumeration grammar::id of expression.h. -/
inductive OpId
  | x
  | y
  | constant
  | plus
  | minus
  | abs
  | sqrt
  | cbrt
  | exp
  | exp2
  | erf
  | log
  | log2
  | log10
  | sin
  | cos
  | tan
  | asin
  | acos
  | atan
  | sinh
  | cosh
  | tanh
  | add
  | sub
  | mul
  | div
  | mod
  | atan2
  | pow
  | min
  | max
  | fmod
  | tofloat
  | todouble
  | toldouble
deriving DecidableEq

/-- One program element: the tuple of id and integer payload stored in
m_ops; the payload is the constants index for id constant and -1 for
every other id. -/
abbrev Op := OpId × Int

/-- A big-real constant as the parser constructs it: from the textual
constructor applied to a numeric token, one of the named constants, or
the small integer built from superscript digits. -/
inductive RVal
  | lit (s : List Char)
  | rE
  | rPi
  | rTau
  | sup (n : ℕ)
deriving DecidableEq

/-- The expression object: the postfix program m_ops, the constants
table m_constants, and the temporary operator stack m_temp_op used by
the unary-call actions (most recent first). -/
structure ExprState where
  ops : List Op := []
  constants : List RVal := []
  temp : List OpId := []
deriving DecidableEq

/-- The operations the evaluator needs from the external big-real type,
kept abstract: any carrier with these operations interprets a program.
ofLit is the textual big-real constructor, ofSup the value built by the
superscript action, zero the value pushed for the reserved y variable. -/
structure RealOps (R : Type) where
  ofLit : List Char → R
  rE : R
  rPi : R
  rTau : R
  ofSup : ℕ → R
  zero : R
  neg : R → R
  fabs : R → R
  sqrt : R → R
  cbrt : R → R
  exp : R → R
  exp2 : R → R
  erf : R → R
  log : R → R
  log2 : R → R
  log10 : R → R
  sin : R → R
  cos : R → R
  tan : R → R
  asin : R → R
  acos : R → R
  atan : R → R
  sinh : R → R
  cosh : R → R
  tanh : R → R
  add : R → R → R
  sub : R → R → R
  mul : R → R → R
  div : R → R → R
  atan2 : R → R → R
  pow : R → R → R
  rmin : R → R → R
  rmax : R → R → R
  fmod : R → R → R
  tofloat : R → R
  todouble : R → R
  toldouble : R → R

/-- The value of a constants-table entry. -/
def constVal {R : Type} (O : RealOps R) : RVal → R
  | RVal.lit s => O.ofLit s
  | RVal.rE => O.rE
  | RVal.rPi => O.rPi
  | RVal.rTau => O.rTau
  | RVal.sup n => O.ofSup n

/-- One step of the evaluator loop on one opcode: push for x, y and
constants; otherwise pop the head (underflow yields none), apply the
operation, popping a second element for binary ids, and push the
result. The operand order matches the source: the first pop is the
right operand of a binary operation. -/
def evalOp {R : Type} (O : RealOps R) (consts : List RVal) (x : R) (op : Op)
    (stack : List R) : Option (List R) :=
  match op.1 with
  | OpId.x => some (x :: stack)
  | OpId.y => some (O.zero :: stack)
  | OpId.constant => some (constVal O (consts.getD op.2.toNat (RVal.lit [])) :: stack)
  | OpId.plus => match stack with | h :: t => some (h :: t) | [] => none
  | OpId.minus => match stack with | h :: t => some (O.neg h :: t) | [] => none
  | OpId.abs => match stack with | h :: t => some (O.fabs h :: t) | [] => none
  | OpId.sqrt => match stack with | h :: t => some (O.sqrt h :: t) | [] => none
  | OpId.cbrt => match stack with | h :: t => some (O.cbrt h :: t) | [] => none
  | OpId.exp => match stack with | h :: t => some (O.exp h :: t) | [] => none
  | OpId.exp2 => match stack with | h :: t => some (O.exp2 h :: t) | [] => none
  | OpId.erf => match stack with | h :: t => some (O.erf h :: t) | [] => none
  | OpId.log => match stack with | h :: t => some (O.log h :: t) | [] => none
  | OpId.log2 => match stack with | h :: t => some (O.log2 h :: t) | [] => none
  | OpId.log10 => match stack with | h :: t => some (O.log10 h :: t) | [] => none
  | OpId.sin => match stack with | h :: t => some (O.sin h :: t) | [] => none
  | OpId.cos => match stack with | h :: t => some (O.cos h :: t) | [] => none
  | OpId.tan => match stack with | h :: t => some (O.tan h :: t) | [] => none
  | OpId.asin => match stack with | h :: t => some (O.asin h :: t) | [] => none
  | OpId.acos => match stack with | h :: t => some (O.acos h :: t) | [] => none
  | OpId.atan => match stack with | h :: t => some (O.atan h :: t) | [] => none
  | OpId.sinh => match stack with | h :: t => some (O.sinh h :: t) | [] => none
  | OpId.cosh => match stack with | h :: t => some (O.cosh h :: t) | [] => none
  | OpId.tanh => match stack with | h :: t => some (O.tanh h :: t) | [] => none
  | OpId.add => match stack with | h :: b :: t => some (O.add b h :: t) | _ => none
  | OpId.sub => match stack with | h :: b :: t => some (O.sub b h :: t) | _ => none
  | OpId.mul => match stack with | h :: b :: t => some (O.mul b h :: t) | _ => none
  | OpId.div => match stack with | h :: b :: t => some (O.div b h :: t) | _ => none
  | OpId.atan2 => match stack with | h :: b :: t => some (O.atan2 b h :: t) | _ => none
  | OpId.pow => match stack with | h :: b :: t => some (O.pow b h :: t) | _ => none
  | OpId.min => match stack with | h :: b :: t => some (O.rmin b h :: t) | _ => none
  | OpId.max => match stack with | h :: b :: t => some (O.rmax b h :: t) | _ => none
  | OpId.mod => match stack with | h :: b :: t => some (O.fmod b h :: t) | _ => none
  | OpId.fmod => match stack with | h :: b :: t => some (O.fmod b h :: t) | _ => none
  | OpId.tofloat => match stack with | h :: t => some (O.tofloat h :: t) | [] => none
  | OpId.todouble => match stack with | h :: t => some (O.todouble h :: t) | [] => none
  | OpId.toldouble => match stack with | h :: t => some (O.toldouble h :: t) | [] => none

/-- The evaluator loop over the whole program. -/
def runOps {R : Type} (O : RealOps R) (consts : List RVal) (x : R) :
    List Op → List R → Option (List R)
  | [], stack => some stack
  | op :: rest, stack =>
    match evalOp O consts x op stack with
    | none => none
    | some stack1 => runOps O consts x rest stack1

/-- expression eval: run the program on an initially empty stack local
to the call; the result is the single remaining value. none models a
stack underflow during the loop or a final stack size other than one,
which is what the assertion in the source guards. -/
def eval {R : Type} (O : RealOps R) (e : ExprState) (x : R) : Option R :=
  match runOps O e.constants x e.ops [] with
  | some [v] => some v
  | _ => none

/-- The state-explicit form of the same loop, carrying the expression
object through every step exactly as the source loop reads m_ops and
m_constants; used to state that evaluation never writes the expression. -/
def runOpsSt {R : Type} (O : RealOps R) (x : R) :
    List Op → ExprState × List R → Option (ExprState × List R)
  | [], p => some p
  | op :: rest, (e, stack) =>
    match evalOp O e.constants x op stack with
    | none => none
    | some stack1 => runOpsSt O x rest (e, stack1)

/-- eval in state-passing form: returns the value and the expression
object as the machine leaves it. -/
def evalFull {R : Type} (O : RealOps R) (e : ExprState) (x : R) : Option (R × ExprState) :=
  match runOpsSt O x e.ops (e, []) with
  | some (e1, [v]) => some (v, e1)
  | _ => none

/-- is_constant over the program: false as soon as an x opcode occurs. -/
def isConstOps : List Op → Bool
  | [] => true
  | op :: rest => if op.1 = OpId.x then false else isConstOps rest

def is_constant (e : ExprState) : Bool := isConstOps e.ops

/-- The pegtl space class: blank and control whitespace characters. -/
def isSpace (c : Char) : Bool :=
  c = ' ' || c = '\t' || c = '\n' || c = '\x0b' || c = '\x0c' || c = '\r'

/-- star of space: drop leading whitespace. -/
def skipSpaces : List Char → List Char
  | [] => []
  | c :: t => if isSpace c then skipSpaces t else c :: t

/-- Greedy run of decimal digits. -/
def takeDigits : List Char → List Char × List Char
  | [] => ([], [])
  | c :: t =>
    if c.isDigit then
      let p := takeDigits t
      (c :: p.1, p.2)
    else ([], c :: t)

def isXDigitChar (c : Char) : Bool :=
  c.isDigit || ('a' ≤ c && c ≤ 'f') || ('A' ≤ c && c ≤ 'F')

/-- Greedy run of hexadecimal digits. -/
def takeXDigits : List Char → List Char × List Char
  | [] => ([], [])
  | c :: t =>
    if isXDigitChar c then
      let p := takeXDigits t
      (c :: p.1, p.2)
    else ([], c :: t)

/-- The optional exponent tail marker digits-plus, with optional sign;
consumed only when the whole group matches, as the PEG opt of a seq
backtracks wholly. -/
def lexExp (m1 m2 : Char) (input : List Char) : List Char × List Char :=
  match input with
  | c :: s :: t =>
    if c = m1 || c = m2 then
      if s = '+' || s = '-' then
        let p := takeDigits t
        if p.1 = [] then ([], input) else (c :: s :: p.1, p.2)
      else
        let p := takeDigits (s :: t)
        if p.1 = [] then ([], input) else (c :: p.1, p.2)
    else ([], input)
  | _ => ([], input)

/-- r_float: digits, optional point and digits, optional decimal
exponent. Returns the matched token and the rest. -/
def lexFloat (input : List Char) : Option (List Char × List Char) :=
  let d := takeDigits input
  if d.1 = [] then none
  else
    let f :=
      match d.2 with
      | '.' :: t =>
        let p := takeDigits t
        ('.' :: p.1, p.2)
      | _ => ([], d.2)
    let e := lexExp 'e' 'E' f.2
    some (d.1 ++ f.1 ++ e.1, e.2)

/-- r_hex_float: 0x, hex digits, optional point and hex digits,
optional binary exponent with decimal digits. -/
def lexHexFloat (input : List Char) : Option (List Char × List Char) :=
  match input with
  | '0' :: c :: t =>
    if c = 'x' || c = 'X' then
      let d := takeXDigits t
      if d.1 = [] then none
      else
        let f :=
          match d.2 with
          | '.' :: t2 =>
            let p := takeXDigits t2
            ('.' :: p.1, p.2)
          | _ => ([], d.2)
        let e := lexExp 'p' 'P' f.2
        some ('0' :: c :: (d.1 ++ f.1 ++ e.1), e.2)
    else none
  | _ => none

/-- The ten superscript digit characters. -/
def supDigitVal (c : Char) : Option ℕ :=
  if c = '⁰' then some 0
  else if c = '¹' then some 1
  else if c = '²' then some 2
  else if c = '³' then some 3
  else if c = '⁴' then some 4
  else if c = '⁵' then some 5
  else if c = '⁶' then some 6
  else if c = '⁷' then some 7
  else if c = '⁸' then some 8
  else if c = '⁹' then some 9
  else none

/-- Greedy run of superscript digits, as digit values. -/
def takeSup : List Char → List ℕ × List Char
  | [] => ([], [])
  | c :: t =>
    match supDigitVal c with
    | some v =>
      let p := takeSup t
      (v :: p.1, p.2)
    | none => ([], c :: t)

/-- r_sup_float with its action value: the integer val accumulated as
val * 10 + digit over the matched superscripts. -/
def lexSupFloat (input : List Char) : Option (ℕ × List Char) :=
  let p := takeSup input
  if p.1 = [] then none
  else some (p.1.foldl (fun acc d => acc * 10 + d) 0, p.2)

/-- Literal keyword match, returning the rest of the input. -/
def matchStr : List Char → List Char → Option (List Char)
  | [], input => some input
  | p :: ps, c :: t => if c = p then matchStr ps t else none
  | _ :: _, [] => none

/-- Ordered first-match scan over a keyword table, the shape of the
greedy pegtl sor over strings. -/
def tryKws (lut : List (String × OpId)) (input : List Char) : Option (OpId × List Char) :=
  match lut with
  | [] => none
  | (kw, op) :: rest =>
    match matchStr kw.toList input with
    | some r => some (op, r)
    | none => tryKws rest input

/-- r_binary_fun alternatives in source order; the id is the one the
r_binary_call action selects for the same leading name. -/
def binaryLut : List (String × OpId) :=
  [("atan2", OpId.atan2), ("pow", OpId.pow), ("min", OpId.min), ("max", OpId.max),
   ("fmod", OpId.fmod)]

def lexBinaryFun (input : List Char) : Option (OpId × List Char) :=
  tryKws binaryLut input

/-- r_unary_fun alternatives in source order (longer names first where
one is a prefix of another), with the id the action lut assigns. -/
def unaryLut : List (String × OpId) :=
  [("tanh", OpId.tanh), ("tan", OpId.tan), ("sqrt", OpId.sqrt), ("sinh", OpId.sinh),
   ("sin", OpId.sin), ("log2", OpId.log2), ("log10", OpId.log10), ("log", OpId.log),
   ("ldouble", OpId.toldouble), ("float", OpId.tofloat), ("exp2", OpId.exp2),
   ("exp", OpId.exp), ("erf", OpId.erf), ("double", OpId.todouble), ("cbrt", OpId.cbrt),
   ("cosh", OpId.cosh), ("cos", OpId.cos), ("asin", OpId.asin), ("atan", OpId.atan),
   ("acos", OpId.acos), ("abs", OpId.abs)]

def lexUnaryFun (input : List Char) : Option (OpId × List Char) :=
  tryKws unaryLut input

/-- Append one opcode to the program. -/
def pushOp (st : ExprState) (op : Op) : ExprState :=
  { st with ops := st.ops ++ [op] }

/-- The constant-emitting action: push a constant opcode holding the
current table size, then push the value. -/
def pushConst (st : ExprState) (v : RVal) : ExprState :=
  { st with
      ops := st.ops ++ [(OpId.constant, (st.constants.length : Int))],
      constants := st.constants ++ [v] }

/-- r_name with its action: hex float first, then float, then the named
alternatives in source order; x and y compile to their opcodes, e, pi
and tau to named constants, numeric tokens to the textual constructor. -/
def pName (input : List Char) (st : ExprState) : Option (List Char × ExprState) :=
  match lexHexFloat input with
  | some (m, r) => some (r, pushConst st (RVal.lit m))
  | none =>
  match lexFloat input with
  | some (m, r) => some (r, pushConst st (RVal.lit m))
  | none =>
  match matchStr ['x'] input with
  | some r => some (r, pushOp st (OpId.x, -1))
  | none =>
  match matchStr ['y'] input with
  | some r => some (r, pushOp st (OpId.y, -1))
  | none =>
  match matchStr ['e'] input with
  | some r => some (r, pushConst st RVal.rE)
  | none =>
  match matchStr ['p', 'i'] input with
  | some r => some (r, pushConst st RVal.rPi)
  | none =>
  match matchStr ['π'] input with
  | some r => some (r, pushConst st RVal.rPi)
  | none =>
  match matchStr ['t', 'a', 'u'] input with
  | some r => some (r, pushConst st RVal.rTau)
  | none =>
  match matchStr ['τ'] input with
  | some r => some (r, pushConst st RVal.rTau)
  | none => none

/-!
The grammar proper, one function per pegtl rule, mutually recursive on
an explicit fuel that every call decrements; the source recursion is
unbounded only through nesting, so any fuel larger than the nesting
depth reproduces it. The model is the clean PEG reading: a failing
rule consumes nothing and leaves no action effects. pegtl itself keeps
the action effects of subrules that succeeded inside a branch that
later failed; for this grammar such a polluted branch makes the whole
parse fail (the leftover operator or parenthesis character can never be
consumed by a following alternative), so the two readings agree on
every successful parse and on the failure results used below.
-/

mutual

/-- r_expr: a term followed by star of add or sub continuations. -/
def pExpr : ℕ → List Char → ExprState → Option (List Char × ExprState)
  | 0, _, _ => none
  | f + 1, input, st =>
    match pTerm f input st with
    | none => none
    | some (r1, st1) => pExprLoop f r1 st1

/-- star of r_add / r_sub, with the add and sub actions. -/
def pExprLoop : ℕ → List Char → ExprState → Option (List Char × ExprState)
  | 0, _, _ => none
  | f + 1, input, st =>
    match skipSpaces input with
    | '+' :: t =>
      match pTerm f (skipSpaces t) st with
      | some (r2, st2) => pExprLoop f r2 (pushOp st2 (OpId.add, -1))
      | none => some (input, st)
    | '-' :: t =>
      match pTerm f (skipSpaces t) st with
      | some (r2, st2) => pExprLoop f r2 (pushOp st2 (OpId.sub, -1))
      | none => some (input, st)
    | _ => some (input, st)

/-- r_term: a signed2 followed by star of mul, div or mod
continuations. -/
def pTerm : ℕ → List Char → ExprState → Option (List Char × ExprState)
  | 0, _, _ => none
  | f + 1, input, st =>
    match pSigned2 f input st with
    | none => none
    | some (r1, st1) => pTermLoop f r1 st1

/-- star of r_mul / r_div / r_mod, with their actions. -/
def pTermLoop : ℕ → List Char → ExprState → Option (List Char × ExprState)
  | 0, _, _ => none
  | f + 1, input, st =>
    match skipSpaces input with
    | '*' :: t =>
      match pSigned2 f (skipSpaces t) st with
      | some (r2, st2) => pTermLoop f r2 (pushOp st2 (OpId.mul, -1))
      | none => some (input, st)
    | '/' :: t =>
      match pSigned2 f (skipSpaces t) st with
      | some (r2, st2) => pTermLoop f r2 (pushOp st2 (OpId.div, -1))
      | none => some (input, st)
    | '%' :: t =>
      match pSigned2 f (skipSpaces t) st with
      | some (r2, st2) => pTermLoop f r2 (pushOp st2 (OpId.mod, -1))
      | none => some (input, st)
    | _ => some (input, st)

/-- r_signed2: leading signs over a factor; a minus emits the unary
minus opcode after the operand. A leading sign with no parsable
operand fails the whole rule, as no later alternative of the source
sor can consume the sign character. -/
def pSigned2 : ℕ → List Char → ExprState → Option (List Char × ExprState)
  | 0, _, _ => none
  | f + 1, input, st =>
    match input with
    | '-' :: t =>
      match pSigned2 f (skipSpaces t) st with
      | some (r, st1) => some (r, pushOp st1 (OpId.minus, -1))
      | none => none
    | '+' :: t => pSigned2 f (skipSpaces t) st
    | _ => pFactor f input st

/-- r_factor: a terminal followed by star of r_pow. -/
def pFactor : ℕ → List Char → ExprState → Option (List Char × ExprState)
  | 0, _, _ => none
  | f + 1, input, st =>
    match pTerminal f input st with
    | none => none
    | some (r1, st1) => pFactorLoop f r1 st1

/-- star of r_pow: a caret or double star, padded by spaces, then a
signed exponent; the action emits the pow opcode after the exponent. -/
def pFactorLoop : ℕ → List Char → ExprState → Option (List Char × ExprState)
  | 0, _, _ => none
  | f + 1, input, st =>
    match skipSpaces input with
    | '^' :: t =>
      match pSigned f (skipSpaces t) st with
      | some (r2, st2) => pFactorLoop f r2 (pushOp st2 (OpId.pow, -1))
      | none => some (input, st)
    | '*' :: '*' :: t =>
      match pSigned f (skipSpaces t) st with
      | some (r2, st2) => pFactorLoop f r2 (pushOp st2 (OpId.pow, -1))
      | none => some (input, st)
    | _ => some (input, st)

/-- r_signed: leading signs over a terminal (no exponent iteration);
used for exponents. -/
def pSigned : ℕ → List Char → ExprState → Option (List Char × ExprState)
  | 0, _, _ => none
  | f + 1, input, st =>
    match input with
    | '-' :: t =>
      match pSigned f (skipSpaces t) st with
      | some (r, st1) => some (r, pushOp st1 (OpId.minus, -1))
      | none => none
    | '+' :: t => pSigned f (skipSpaces t) st
    | _ => pTerminal f input st

/-- r_terminal: a call, a name or a parenthesised expression, then
spaces and an optional superscript float, whose action emits the
superscript constant and a pow opcode. -/
def pTerminal : ℕ → List Char → ExprState → Option (List Char × ExprState)
  | 0, _, _ => none
  | f + 1, input, st =>
    let base :=
      match pCall f input st with
      | some r => some r
      | none =>
        match pName input st with
        | some r => some r
        | none =>
          match input with
          | '(' :: t =>
            match pExpr f (skipSpaces t) st with
            | some (r1, st1) =>
              match skipSpaces r1 with
              | ')' :: t2 => some (t2, st1)
              | _ => none
            | none => none
          | _ => none
    match base with
    | none => none
    | some (r1, st1) =>
      let r2 := skipSpaces r1
      match lexSupFloat r2 with
      | some (n, r3) => some (r3, pushOp (pushConst st1 (RVal.sup n)) (OpId.pow, -1))
      | none => some (r2, st1)

/-- r_call: binary call first, then unary call. -/
def pCall : ℕ → List Char → ExprState → Option (List Char × ExprState)
  | 0, _, _ => none
  | f + 1, input, st =>
    match pBinaryCall f input st with
    | some r => some r
    | none => pUnaryCall f input st

/-- r_binary_call: function name, parenthesised pair of expressions;
the action appends the opcode selected by the leading name. -/
def pBinaryCall : ℕ → List Char → ExprState → Option (List Char × ExprState)
  | 0, _, _ => none
  | f + 1, input, st =>
    match lexBinaryFun input with
    | none => none
    | some (op, r1) =>
      match skipSpaces r1 with
      | '(' :: t =>
        match pExpr f (skipSpaces t) st with
        | some (r3, st1) =>
          match skipSpaces r3 with
          | ',' :: t2 =>
            match pExpr f (skipSpaces t2) st1 with
            | some (r4, st2) =>
              match skipSpaces r4 with
              | ')' :: t3 => some (t3, pushOp st2 (op, -1))
              | _ => none
            | none => none
          | _ => none
        | none => none
      | _ => none

/-- r_unary_call: the r_unary_fun action pushes the id on m_temp_op as
soon as the name matches; the r_unary_call action pops it and appends
the opcode after the argument program. -/
def pUnaryCall : ℕ → List Char → ExprState → Option (List Char × ExprState)
  | 0, _, _ => none
  | f + 1, input, st =>
    match lexUnaryFun input with
    | none => none
    | some (op, r1) =>
      let st0 := { st with temp := op :: st.temp }
      match skipSpaces r1 with
      | '(' :: t =>
        match pExpr f (skipSpaces t) st0 with
        | some (r3, st1) =>
          match skipSpaces r3 with
          | ')' :: t2 =>
            match st1.temp with
            | u :: rest =>
              some (t2, { st1 with ops := st1.ops ++ [(u, -1)], temp := rest })
            | [] => none
          | _ => none
        | none => none
      | _ => none

end

/-- r_stmt: the padded expression must reach the end of input. -/
def pStmt (f : ℕ) (input : List Char) (st : ExprState) : Option ExprState :=
  match pExpr f (skipSpaces input) st with
  | none => none
  | some (r, st1) =>
    match skipSpaces r with
    | [] => some st1
    | _ => none

/-- expression parse: clear m_ops and m_constants, then attempt r_stmt;
true on success, false on a parse error. In the clean PEG model the
failure state is the cleared expression (see the note above the
grammar: action effects of failed attempts are dropped, which agrees
with pegtl on inputs where no action of a succeeding subrule fires
before the failure, such as the ones used below). -/
def parse (f : ℕ) (e : ExprState) (s : List Char) : Bool × ExprState :=
  let cleared : ExprState := { ops := [], constants := [], temp := e.temp }
  match pStmt f s cleared with
  | some st1 => (true, st1)
  | none => (false, cleared)

/-- The expression that a successful parse of the one-character input x
leaves behind: the program with the single variable opcode. -/
def c2Expr : ExprState := { ops := [(OpId.x, -1)], constants := [], temp := [] }

/-- A concrete instantiation of the abstract big-real operations over
the integers, used by witnesses; the claims proved against RealOps hold
for every instantiation, so any computable one can serve. -/
def intOps : RealOps ℤ :=
  { ofLit := fun _ => 0, rE := 0, rPi := 0, rTau := 0, ofSup := fun n => (n : ℤ),
    zero := 0, neg := fun v => -v, fabs := fun v => |v|, sqrt := fun v => v,
    cbrt := fun v => v, exp := fun v => v, exp2 := fun v => v, erf := fun v => v,
    log := fun v => v, log2 := fun v => v, log10 := fun v => v, sin := fun v => v,
    cos := fun v => v, tan := fun v => v, asin := fun v => v, acos := fun v => v,
    atan := fun v => v, sinh := fun v => v, cosh := fun v => v, tanh := fun v => v,
    add := fun a b => a + b, sub := fun a b => a - b, mul := fun a b => a * b,
    div := fun a b => a + b, atan2 := fun a b => a + b, pow := fun a b => a * b,
    rmin := fun a b => a + b, rmax := fun a b => a + b, fmod := fun a b => a + b,
    tofloat := fun v => v, todouble := fun v => v, toldouble := fun v => v }

/-- A program segment leaves the stack one element taller, for every
big-real interpretation, argument, constants table and starting stack:
the net effect of the code a complete grammar production emits. -/
def OneMore (d : List Op) : Prop :=
  ∀ (R : Type) (O : RealOps R) (x : R) (consts : List RVal) (stack : List R),
    ∃ v : R, runOps O consts x d stack = some (v :: stack)

/-- A program segment transforms the top stack element and preserves
the rest: the net effect of the code a star continuation emits. -/
def KeepOne (d : List Op) : Prop :=
  ∀ (R : Type) (O : RealOps R) (x : R) (consts : List RVal) (v : R) (stack : List R),
    ∃ w : R, runOps O consts x d (v :: stack) = some (w :: stack)

/-- Relation between the states before and after a successful complete
production: the temporary operator stack is restored and the appended
opcodes push exactly one net value. -/
def Emits1 (st st1 : ExprState) : Prop :=
  st1.temp = st.temp ∧ ∃ d, st1.ops = st.ops ++ d ∧ OneMore d

/-- The same for a star continuation: the appended opcodes replace the
top stack value. -/
def EmitsK (st st1 : ExprState) : Prop :=
  st1.temp = st.temp ∧ ∃ d, st1.ops = st.ops ++ d ∧ KeepOne d

/-- An opcode that pops one value and pushes one. -/
def Unary1 (op : OpId) : Prop :=
  ∀ (R : Type) (O : RealOps R) (consts : List RVal) (x v : R) (stack : List R),
    ∃ w : R, evalOp O consts x (op, -1) (v :: stack) = some (w :: stack)

/-- An opcode that pops two values and pushes one. -/
def Binary1 (op : OpId) : Prop :=
  ∀ (R : Type) (O : RealOps R) (consts : List RVal) (x v1 v2 : R) (stack : List R),
    ∃ w : R, evalOp O consts x (op, -1) (v2 :: v1 :: stack) = some (w :: stack)

end Expr

/-!
Theorems. The remainder of the file proves the claims against the
definitions above; helper lemmas come first.
-/

theorem sumRange_succ (n : ℕ) (f : ℕ → ℚ) :
    sumRange (n + 1) f = sumRange n f + f n := by
  unfold sumRange
  rw [List.range_succ, List.foldl_append]
  rfl

theorem sumRange_eq_finset_sum (n : ℕ) (f : ℕ → ℚ) :
    sumRange n f = ∑ i ∈ Finset.range n, f i := by
  induction n with
  | zero => rfl
  | succ m ih => rw [sumRange_succ, Finset.sum_range_succ, ih]

theorem qabs_def (x : ℚ) : |x| = if 0 ≤ x then x else -x := by
  rcases le_or_lt 0 x with h | h
  · rw [abs_of_nonneg h, if_pos h]
  · rw [abs_of_neg h, if_neg (not_le.mpr h)]

namespace LinSys

theorem length_rowAdd (m : Mat) (i j : ℕ) : (rowAdd m i j).length = m.length := by
  simp [rowAdd]

theorem length_rowSubMul (m : Mat) (j i : ℕ) (mul : ℚ) :
    (rowSubMul m j i mul).length = m.length := by
  simp [rowSubMul]

theorem length_rowScale (m : Mat) (i : ℕ) (x : ℚ) :
    (rowScale m i x).length = m.length := by
  simp [rowScale]

theorem length_pivotFix (ab : Mat × Mat) (i : ℕ) :
    (pivotFix ab i).2.length = ab.2.length := by
  unfold pivotFix
  split
  · cases h : findAddRow ab.1 i <;> simp [length_rowAdd]
  · rfl

theorem length_elimOthers (ab : Mat × Mat) (i : ℕ) (x : ℚ) :
    (elimOthers ab i x).2.length = ab.2.length := by
  unfold elimOthers
  generalize List.range ab.1.length = l
  induction l generalizing ab with
  | nil => rfl
  | cons j t ih =>
      simp only [List.foldl_cons]
      by_cases hj : j = i
      · simpa [hj] using ih ab
      · rw [ih]
        simp [hj, length_rowSubMul]

theorem length_invStep (ab : Mat × Mat) (i : ℕ) :
    (invStep ab i).2.length = ab.2.length := by
  unfold invStep
  simp [length_rowScale, length_elimOthers, length_pivotFix]

theorem length_abAfter (m : Mat) (i : ℕ) :
    (abAfter m i).2.length = m.length := by
  unfold abAfter
  have : ∀ (l : List ℕ) (ab : Mat × Mat), (l.foldl invStep ab).2.length = ab.2.length := by
    intro l
    induction l with
    | nil => intro ab; rfl
    | cons j t ih => intro ab; rw [List.foldl_cons, ih, length_invStep]
  rw [this]
  simp [idMat]

/-- C3 counterexample: the matrix [[0,0],[0,1]] is singular with a zero
diagonal term at column 0 that no later row can repair, yet inverse
raises no error and returns the matrix [[0,0],[0,1]], which is not an
inverse of the input. -/
theorem C3_counterexample :
    hitsZeroPivot [[0, 0], [0, 1]] ∧
      inverse [[0, 0], [0, 1]] = [[0, 0], [0, 1]] ∧
      matMul 2 [[0, 0], [0, 1]] (inverse [[0, 0], [0, 1]]) ≠ idMat 2 := by
  refine ⟨⟨0, by norm_num, ?_⟩, ?_, ?_⟩
  · norm_num [pivotAt, abAfter, pivotFix, findAddRow, scanRow, entry, idMat, List.range_succ]
  · norm_num [inverse, abAfter, invStep, pivotFix, findAddRow, scanRow, elimOthers,
      rowAdd, rowSubMul, rowScale, entry, idMat, List.range_succ]
  · norm_num [inverse, abAfter, invStep, pivotFix, findAddRow, scanRow, elimOthers,
      rowAdd, rowSubMul, rowScale, entry, idMat, matMul, sumRange, List.range_succ]

/-- C3 amended: linear_system inverse contains no error path at all. Even
when some column keeps a zero diagonal term after the row-addition scan,
the function still returns a full square matrix of the input dimension,
and the scale step at that column divides by the zero term (the factor
used is literally one over zero) instead of failing. -/
theorem C3_inverse_total_and_divides_by_zero (m : Mat) (h : hitsZeroPivot m) :
    (inverse m).length = m.length ∧
      ∃ i < m.length, pivotAt m i = 0 ∧ scaleAt m i = 1 / (0 : ℚ) := by
  refine ⟨length_abAfter m m.length, ?_⟩
  rcases h with ⟨i, hi, hz⟩
  exact ⟨i, hi, hz, by rw [scaleAt, hz]⟩

/-- C3 witness: the amended statement applied to the concrete singular
matrix [[0,0],[0,1]]. -/
theorem C3_witness :
    (inverse [[0, 0], [0, 1]]).length = 2 ∧
      ∃ i < 2, pivotAt [[0, 0], [0, 1]] i = 0 ∧ scaleAt [[0, 0], [0, 1]] i = 1 / (0 : ℚ) := by
  have h := C3_inverse_total_and_divides_by_zero [[0, 0], [0, 1]]
    ⟨0, by norm_num,
      by norm_num [pivotAt, abAfter, pivotFix, findAddRow, scanRow, entry, idMat,
        List.range_succ]⟩
  simpa using h

end LinSys

namespace Remez

theorem remez_step_error (s : SolverState) : (remez_step s).error = s.error := rfl

theorem remez_step_epsilon (s : SolverState) : (remez_step s).epsilon = s.epsilon := rfl

theorem find_extrema_init_control (u : ℕ → ℚ) (s : SolverState) :
    (find_extrema_init u s).control = (s.control.set 0 (-1)).set (s.order + 1) 1 := rfl

/-- C1: the find_zeros bracket initialisation was meant to set
a.err and b.err to the current error values at the bracket ends and to
reset the third point err to zero, and the loop that consumes worker
answers reads the third slot as c. But the source declares the
reference c as slot 1, aliasing b, so the assignment c.err = 0 lands on
b.err after b.err had just been computed, and the third slot keeps its
stale contents. On the concrete state c1State, bracket 0 ends with
b.err = 0 instead of estimate(b.x) - f(b.x) = -3, and with the third
point err still 7 instead of 0. The a point is the only one matching
the claim. -/
theorem C1_zero_bracket_init_bug :
    (((find_zeros_init c1State).zeros_state.getD 0 defBracket).p1.err ≠
        eval_estimate c1State (c1State.control.getD 1 0) -
          eval_func c1State (c1State.control.getD 1 0)) ∧
      ((find_zeros_init c1State).zeros_state.getD 0 defBracket).p2.err ≠ 0 ∧
      ((find_zeros_init c1State).zeros_state.getD 0 defBracket).p1.err = 0 ∧
      ((find_zeros_init c1State).zeros_state.getD 0 defBracket).p2.err = 7 ∧
      ((find_zeros_init c1State).zeros_state.getD 0 defBracket).p0.err =
        eval_estimate c1State (c1State.control.getD 0 0) -
          eval_func c1State (c1State.control.getD 0 0) := by
  norm_num [find_zeros_init, zeroInitBracket, eval_estimate, eval_func, polyEval,
    c1State, defBracket, defPoint, List.range_succ]

/-- C4 counterexample: a completed find_extrema run on the concrete
state c4State overwrites both clamped control points: control[0] ends
at -11/116 and control[N+1] at 3/4, because the refinement loop of the
newer solver also refines brackets 0 and N+1 and stores their converged
abscissae over the initial -1 and +1. -/
theorem C4_counterexample :
    (find_extrema 2 c4u c4State).map (fun t => t.control.getD 0 0) = some (-11/116) ∧
      (find_extrema 2 c4u c4State).map (fun t => t.control.getD 2 0) = some (3/4) ∧
      ((-11 : ℚ)/116) ≠ -1 ∧ ((3 : ℚ)/4) ≠ 1 := by
  refine ⟨?_, ?_, by norm_num, by norm_num⟩ <;>
    norm_num [find_extrema, find_extrema_init, extremaInitBracket, extremaStep,
      refineExtremaBracket, extremaBracketDone, eval_error, eval_estimate, eval_func,
      eval_weight, polyEval, qabs_def, c4State, c4u, defBracket, defPoint, List.range_succ]

/-- C4 amended: the clamp control[0] = -1 and control[N+1] = +1 holds
right after the assignment at the start of find_extrema, that is on the
state against which the brackets are initialised and the workers run;
after the refinement loop completes, both entries are overwritten with
the converged bracket abscissae and need not equal -1 and +1. -/
theorem C4_clamp_at_entry (u : ℕ → ℚ) (s : SolverState)
    (h : s.order + 2 ≤ s.control.length) :
    (find_extrema_init u s).control.getD 0 0 = -1 ∧
      (find_extrema_init u s).control.getD (s.order + 1) 0 = 1 := by
  rw [find_extrema_init_control]
  have h1 : s.order + 1 ≠ 0 := by omega
  have h2 : (0 : ℕ) < s.control.length := by omega
  have h3 : s.order + 1 < (s.control.set 0 (-1)).length := by
    rw [List.length_set]; omega
  constructor
  · simp [List.getD, List.getElem?_set_ne h1, List.getElem?_set_self h2]
  · simp [List.getD, List.getElem?_set_self h3]

/-- C4 witness: the amended clamp statement at the concrete state. -/
theorem C4_witness :
    (find_extrema_init c4u c4State).control.getD 0 0 = -1 ∧
      (find_extrema_init c4u c4State).control.getD 2 0 = 1 := by
  have h := C4_clamp_at_entry c4u c4State (by norm_num [c4State])
  simpa [c4State] using h

/-- C5 counterexample: with the default pegasus root finder and a
bracket whose endpoint errors are both positive (the bracket has lost
its sign change), the worker step still computes the regula-falsi
candidate, here 2, which is outside the bracket, instead of the
midpoint 1/2; no midpoint fallback exists for the sign-loss case. -/
theorem C5_counterexample :
    sgn c5Bracket.p0.err = sgn c5Bracket.p1.err ∧
      sgn c5Bracket.p0.err ≠ 0 ∧
      (zeroStep c5State c5Bracket).p2.x = 2 ∧
      (c5Bracket.p0.x + c5Bracket.p1.x) / 2 = 1 / 2 ∧
      (2 : ℚ) ≠ 1 / 2 := by
  norm_num [zeroStep, sgn, eval_estimate, eval_func, polyEval, c5State, c5Bracket]
  decide

/-- C5 amended: the worker zero-refinement step selects the candidate
abscissa by the root-finder variant only, never by the sign
configuration of the bracket: the bisect variant always takes the
midpoint, and every other variant always takes the regula-falsi
formula, including when both endpoint errors have the same sign. -/
theorem C5_candidate_choice (s : SolverState) (br : Bracket) :
    (s.rf = RootFinder.bisect →
        (zeroStep s br).p2.x = (br.p0.x + br.p1.x) / 2) ∧
      (s.rf ≠ RootFinder.bisect →
        (zeroStep s br).p2.x =
          br.p0.x - br.p0.err * (br.p1.x - br.p0.x) / (br.p1.err - br.p0.err)) := by
  constructor
  · intro h
    simp only [zeroStep]
    rw [if_pos h]
    split <;> rfl
  · intro h
    simp only [zeroStep]
    rw [if_neg h]
    split <;> rfl

/-- C5 witness: the candidate choice at the concrete states, one
application per variant side. -/
theorem C5_witness :
    (zeroStep c5BisectState c5Bracket).p2.x = (c5Bracket.p0.x + c5Bracket.p1.x) / 2 ∧
      (zeroStep c5State c5Bracket).p2.x =
        c5Bracket.p0.x - c5Bracket.p0.err * (c5Bracket.p1.x - c5Bracket.p0.x) /
          (c5Bracket.p1.err - c5Bracket.p0.err) := by
  exact ⟨(C5_candidate_choice c5BisectState c5Bracket).1 rfl,
    (C5_candidate_choice c5State c5Bracket).2 (by decide)⟩

/-- C7: one driver iteration signals termination exactly on the stated
convergence test. If find_extrema completes with state s1, then
do_step returns false, with find_zeros skipped and the state left at
remez_step s1, precisely when s1.error is non-negative and differs from
the previous error by less than s1.error times epsilon; otherwise it
runs find_zeros on remez_step s1 and returns true. The error tested is
the one observed by find_extrema, because remez_step leaves the error
field unchanged, and epsilon is the tolerance 10^-(digits+2) that
do_init installs. -/
theorem C7_do_step_convergence (fuel : ℕ) (u : ℕ → ℚ) (s s1 : SolverState)
    (hfe : find_extrema fuel u s = some s1) :
    ((0 ≤ s1.error ∧ |s1.error - s.error| < s1.error * s1.epsilon) →
        do_step fuel u s = some (false, remez_step s1)) ∧
      (¬(0 ≤ s1.error ∧ |s1.error - s.error| < s1.error * s1.epsilon) →
        do_step fuel u s = (find_zeros fuel (remez_step s1)).map (fun t => (true, t))) ∧
      (remez_step s1).error = s1.error ∧
      ∀ st : SolverState, (do_init st).epsilon = ((10 : ℚ) ^ (st.digits + 2))⁻¹ := by
  refine ⟨?_, ?_, remez_step_error s1, fun st => rfl⟩
  · intro hc
    unfold do_step
    rw [hfe]
    simp only [remez_step_error, remez_step_epsilon]
    rw [if_pos ⟨hc.1, hc.2⟩]
  · intro hc
    unfold do_step
    rw [hfe]
    simp only [remez_step_error, remez_step_epsilon]
    rw [if_neg hc]
    cases find_zeros fuel (remez_step s1) <;> rfl

/-- C7 witness: on the concrete state c7State the observed error 7/16
equals the previous one, the convergence test fires, and do_step stops
with false, its state being remez_step of the find_extrema result. -/
theorem C7_witness :
    do_step 2 c4u c7State = some (false, remez_step c7After) := by
  have hfe : find_extrema 2 c4u c7State = some c7After := by
    norm_num [find_extrema, find_extrema_init, extremaInitBracket, extremaStep,
      refineExtremaBracket, extremaBracketDone, eval_error, eval_estimate, eval_func,
      eval_weight, polyEval, qabs_def, c7State, c7After, c4State, c4u, defBracket,
      defPoint, List.range_succ]
  refine (C7_do_step_convergence 2 c4u c7State c7After hfe).1 ?_
  constructor
  · norm_num [c7After, c7State, c4State]
  · norm_num [c7After, c7State, c4State]

end Remez

namespace Remez

theorem polyAdd_length : ∀ p q : List ℚ, (polyAdd p q).length = max p.length q.length
  | [], [] => rfl
  | [], _ :: _ => by simp [polyAdd]
  | _ :: _, [] => by simp [polyAdd]
  | c :: p, d :: q => by
    simp only [polyAdd, List.length_cons, polyAdd_length p q]
    omega

theorem polySmul_length (c : ℚ) (p : List ℚ) : (polySmul c p).length = p.length := by
  simp [polySmul]

theorem polySub_length (p q : List ℚ) : (polySub p q).length = max p.length q.length := by
  rw [polySub, polyAdd_length, polySmul_length]

theorem cheb_length : ∀ n : ℕ, (cheb n).length = n + 1
  | 0 => rfl
  | 1 => rfl
  | n + 2 => by
    simp only [cheb, polySub_length, polySmul_length, List.length_cons, polyMulX,
      cheb_length (n + 1), cheb_length n]
    omega

theorem polyEval_nil (x : ℚ) : polyEval [] x = 0 := rfl

theorem polyEval_cons (c : ℚ) (p : List ℚ) (x : ℚ) :
    polyEval (c :: p) x = c + x * polyEval p x := rfl

theorem polyEval_polyAdd : ∀ (p q : List ℚ) (x : ℚ),
    polyEval (polyAdd p q) x = polyEval p x + polyEval q x
  | [], q, x => by simp [polyAdd, polyEval_nil]; cases q <;> rfl
  | _ :: _, [], x => by simp [polyAdd, polyEval_nil]
  | c :: p, d :: q, x => by
    simp only [polyAdd, polyEval_cons, polyEval_polyAdd p q x]
    ring

theorem polyEval_polySmul (c : ℚ) (p : List ℚ) (x : ℚ) :
    polyEval (polySmul c p) x = c * polyEval p x := by
  induction p with
  | nil => simp [polySmul, polyEval_nil]
  | cons d t ih =>
    simp only [polySmul, List.map_cons, polyEval_cons] at *
    rw [ih]
    ring

theorem buildEstimate_zero (inv : LinSys.Mat) (fxn : List ℚ) :
    buildEstimate 0 inv fxn = [] := rfl

theorem buildEstimate_succ (m : ℕ) (inv : LinSys.Mat) (fxn : List ℚ) :
    buildEstimate (m + 1) inv fxn =
      polyAdd (buildEstimate m inv fxn)
        (polySmul (sumRange fxn.length (fun i => LinSys.entry inv m i * fxn.getD i 0))
          (cheb m)) := by
  unfold buildEstimate
  rw [List.range_succ, List.foldl_append]
  rfl

theorem buildEstimate_length (m : ℕ) (inv : LinSys.Mat) (fxn : List ℚ) :
    (buildEstimate m inv fxn).length = m := by
  induction m with
  | zero => rfl
  | succ k ih =>
    rw [buildEstimate_succ, polyAdd_length, ih, polySmul_length, cheb_length]
    omega

theorem polyEval_buildEstimate (m : ℕ) (inv : LinSys.Mat) (fxn : List ℚ) (x : ℚ) :
    polyEval (buildEstimate m inv fxn) x =
      sumRange m (fun n =>
        sumRange fxn.length (fun i => LinSys.entry inv n i * fxn.getD i 0) *
          polyEval (cheb n) x) := by
  induction m with
  | zero => rfl
  | succ k ih =>
    rw [buildEstimate_succ, polyEval_polyAdd, polyEval_polySmul, sumRange_succ, ih]

theorem getD_map_range {α : Type} (f : ℕ → α) {n i : ℕ} (h : i < n) (d : α) :
    ((List.range n).map f).getD i d = f i := by
  rw [List.getD_eq_getElem?_getD, List.getElem?_map, List.getElem?_range h]
  rfl

theorem getD_map_lt {α β : Type} (f : α → β) (l : List α) {i : ℕ} (h : i < l.length)
    (d : β) (e : α) : (l.map f).getD i d = f (l.getD i e) := by
  rw [List.getD_eq_getElem?_getD, List.getElem?_map, List.getD_eq_getElem?_getD,
    List.getElem?_eq_getElem h]
  rfl

theorem initNodes_length (n : ℕ) : (initNodes n).length = n + 1 := by
  rw [initNodes, List.length_map, List.length_range]

theorem entry_chebMat (N : ℕ) (xs : List ℚ) {i c : ℕ} (hi : i < N + 1) (hc : c < N + 1) :
    LinSys.entry (chebMat N xs) i c = polyEval (cheb c) (xs.getD i 0) := by
  have h0 : LinSys.entry (chebMat N xs) i c = ((chebMat N xs).getD i []).getD c 0 := rfl
  rw [h0]
  unfold chebMat
  rw [getD_map_range _ hi, getD_map_range _ hc]

theorem entry_matMul (n : ℕ) (a b : LinSys.Mat) {i j : ℕ} (hi : i < n) (hj : j < n) :
    LinSys.entry (LinSys.matMul n a b) i j =
      sumRange n (fun k => LinSys.entry a i k * LinSys.entry b k j) := by
  have h0 : LinSys.entry (LinSys.matMul n a b) i j =
      ((LinSys.matMul n a b).getD i []).getD j 0 := rfl
  rw [h0]
  unfold LinSys.matMul
  rw [getD_map_range _ hi, getD_map_range _ hj]

theorem entry_idMat (n : ℕ) {i j : ℕ} (hi : i < n) (hj : j < n) :
    LinSys.entry (LinSys.idMat n) i j = if j = i then 1 else 0 := by
  have h0 : LinSys.entry (LinSys.idMat n) i j = ((LinSys.idMat n).getD i []).getD j 0 := rfl
  rw [h0]
  unfold LinSys.idMat
  rw [getD_map_range _ hi, getD_map_range _ hj]

/-- C6: after remez_init with order N, provided the computed inverse of
the Chebyshev evaluation system is exact (the product with the system
is the identity; this is the within-working-precision parenthesis of
the claim, discharged exactly on the rational embedding at concrete
orders), the estimate polynomial has exactly N + 1 coefficients, i.e.
degree N as a coefficient sequence, and interpolates the target: it
agrees with f(k1 + k2 t) at every initial abscissa t_i = (2i-N)/(N+1). -/
theorem C6_remez_init_interpolates (s : SolverState)
    (hinv : LinSys.matMul (s.order + 1) (chebMat s.order (initNodes s.order))
        (LinSys.inverse (chebMat s.order (initNodes s.order))) =
        LinSys.idMat (s.order + 1)) :
    (remez_init s).estimate.length = s.order + 1 ∧
      ∀ i < s.order + 1,
        polyEval (remez_init s).estimate ((initNodes s.order).getD i 0) =
          eval_func s ((initNodes s.order).getD i 0) := by
  have hest : (remez_init s).estimate =
      buildEstimate (s.order + 1) (LinSys.inverse (chebMat s.order (initNodes s.order)))
        ((initNodes s.order).map (eval_func s)) := rfl
  set N := s.order with hN
  set zs := initNodes s.order with hzs
  set V := chebMat s.order zs with hV
  set W := LinSys.inverse V with hW
  set fxn := zs.map (eval_func s) with hfxn
  have hlenf : fxn.length = N + 1 := by
    rw [hfxn, List.length_map, hzs, initNodes_length]
  refine ⟨by rw [hest, buildEstimate_length], ?_⟩
  intro j hj
  have hjz : j < zs.length := by rw [hzs, initNodes_length]; omega
  rw [hest, polyEval_buildEstimate, hlenf]
  have hfx : ∀ i < N + 1, fxn.getD i 0 = eval_func s (zs.getD i 0) := by
    intro i hi
    rw [hfxn]
    exact getD_map_lt (eval_func s) zs (by rw [hzs, initNodes_length]; omega) 0 0
  have hVentry : ∀ n < N + 1, LinSys.entry V j n = polyEval (cheb n) (zs.getD j 0) := by
    intro n hn
    rw [hV]
    exact entry_chebMat s.order zs hj hn
  have hsum : sumRange (N + 1) (fun n =>
      sumRange (N + 1) (fun i => LinSys.entry W n i * fxn.getD i 0) *
        polyEval (cheb n) (zs.getD j 0)) =
      ∑ n ∈ Finset.range (N + 1), ∑ i ∈ Finset.range (N + 1),
        LinSys.entry V j n * LinSys.entry W n i * fxn.getD i 0 := by
    rw [sumRange_eq_finset_sum]
    refine Finset.sum_congr rfl (fun n hn => ?_)
    rw [sumRange_eq_finset_sum, Finset.sum_mul]
    refine Finset.sum_congr rfl (fun i hi => ?_)
    rw [hVentry n (List.mem_range.mp hn)]
    ring
  rw [hsum, Finset.sum_comm]
  have hcol : ∀ i ∈ Finset.range (N + 1),
      (∑ n ∈ Finset.range (N + 1), LinSys.entry V j n * LinSys.entry W n i * fxn.getD i 0) =
        (if i = j then (1 : ℚ) else 0) * fxn.getD i 0 := by
    intro i hi
    rw [← Finset.sum_mul]
    congr 1
    have hmm := entry_matMul (N + 1) V W (i := j) (j := i) hj (List.mem_range.mp hi)
    rw [sumRange_eq_finset_sum] at hmm
    rw [← hmm, hinv, entry_idMat (N + 1) hj (List.mem_range.mp hi)]
  rw [Finset.sum_congr rfl hcol]
  simp only [ite_mul, one_mul, zero_mul]
  rw [Finset.sum_ite_eq' (Finset.range (N + 1)) j (fun i => fxn.getD i 0)]
  rw [if_pos (Finset.mem_range.mpr hj)]
  exact hfx j hj

end Remez

namespace Remez

/-- C6 witness: at order 1 the Chebyshev system over the nodes -1/2 and
1/2 inverts exactly, and the resulting estimate has two coefficients
and matches the target at both nodes. -/
theorem C6_witness :
    (remez_init c6State).estimate.length = 2 ∧
      ∀ i < 2,
        polyEval (remez_init c6State).estimate ((initNodes 1).getD i 0) =
          eval_func c6State ((initNodes 1).getD i 0) := by
  have hinv : LinSys.matMul (c6State.order + 1)
      (chebMat c6State.order (initNodes c6State.order))
      (LinSys.inverse (chebMat c6State.order (initNodes c6State.order))) =
      LinSys.idMat (c6State.order + 1) := by
    norm_num [LinSys.matMul, LinSys.inverse, LinSys.abAfter, LinSys.invStep,
      LinSys.pivotFix, LinSys.findAddRow, LinSys.scanRow, LinSys.elimOthers,
      LinSys.rowAdd, LinSys.rowSubMul, LinSys.rowScale, LinSys.entry, LinSys.idMat,
      chebMat, cheb, polyEval, initNodes, sumRange, c6State, List.range_succ]
  have h := C6_remez_init_interpolates c6State hinv
  simpa [c6State] using h

end Remez

namespace Expr

/-- C2 counterexample: after successfully parsing the program x, a
parse of the syntactically invalid input consisting of the single
character at-sign returns failure, but the previously-parsed program is
gone: the opcode sequence is empty rather than the variable opcode, and
is_constant flips from false to true. -/
theorem C2_counterexample :
    parse 10 ({} : ExprState) ['x'] = (true, c2Expr) ∧
      (parse 10 c2Expr ['@']).1 = false ∧
      (parse 10 c2Expr ['@']).2 ≠ c2Expr ∧
      is_constant c2Expr = false ∧
      is_constant (parse 10 c2Expr ['@']).2 = true := by
  refine ⟨by decide, by decide, by decide, by decide, by decide⟩

/-- C2 amended: parse returns failure on a syntactically invalid input,
but it clears the previously-parsed opcode sequence and constants table
before attempting the new parse, so after a failed call the expression
holds the cleared program (plus, in the C++ original, any opcodes
emitted by subrules that succeeded before the failure), not the
previous one; subsequent eval and is_constant reflect the new state. -/
theorem C2_parse_failure_clears (f : ℕ) (e : ExprState) (s : List Char)
    (h : (parse f e s).1 = false) :
    (parse f e s).2 = { ops := [], constants := [], temp := e.temp } := by
  cases hp : pStmt f s { ops := [], constants := [], temp := e.temp } with
  | none => simp [parse, hp]
  | some st1 => simp [parse, hp] at h

/-- C2 witness: the amended statement at the concrete failed parse. -/
theorem C2_witness :
    (parse 10 c2Expr ['@']).2 = { ops := [], constants := [], temp := c2Expr.temp } :=
  C2_parse_failure_clears 10 c2Expr ['@'] (by decide)

theorem runOpsSt_expr {R : Type} (O : RealOps R) (x : R) (l : List Op) (e : ExprState) :
    ∀ stack, runOpsSt O x l (e, stack) =
      (runOps O e.constants x l stack).map (fun s => (e, s)) := by
  induction l with
  | nil => intro stack; rfl
  | cons op rest ih =>
    intro stack
    simp only [runOpsSt, runOps]
    cases evalOp O e.constants x op stack with
    | none => rfl
    | some stack1 => exact ih stack1

/-- C10: evaluation of a parsed expression is deterministic and pure:
the same call on the same argument returns the same value, and running
the evaluator with the expression object threaded through every step
returns the object unchanged, all mutation being confined to the
call-local stack. -/
theorem C10_eval_deterministic_pure {R : Type} (O : RealOps R) (e : ExprState) (x : R) :
    eval O e x = eval O e x ∧
      evalFull O e x = (eval O e x).map (fun v => (v, e)) := by
  refine ⟨rfl, ?_⟩
  unfold evalFull eval
  rw [runOpsSt_expr O x e.ops e []]
  cases runOps O e.constants x e.ops [] with
  | none => rfl
  | some s =>
    match s with
    | [] => rfl
    | [v] => rfl
    | a :: b :: t => rfl

end Expr

namespace Expr

theorem runOps_append {R : Type} (O : RealOps R) (consts : List RVal) (x : R)
    (l1 l2 : List Op) : ∀ stack, runOps O consts x (l1 ++ l2) stack =
      (runOps O consts x l1 stack).bind (runOps O consts x l2) := by
  induction l1 with
  | nil => intro stack; rfl
  | cons op rest ih =>
    intro stack
    simp only [List.cons_append, runOps]
    cases evalOp O consts x op stack with
    | none => rfl
    | some stack1 => exact ih stack1

theorem KeepOne_nil : KeepOne [] := by
  intro R O x consts v stack
  exact ⟨v, rfl⟩

theorem OneMore_append {d1 d2 : List Op} (h1 : OneMore d1) (h2 : KeepOne d2) :
    OneMore (d1 ++ d2) := by
  intro R O x consts stack
  obtain ⟨v, hv⟩ := h1 R O x consts stack
  obtain ⟨w, hw⟩ := h2 R O x consts v stack
  exact ⟨w, by rw [runOps_append, hv, Option.some_bind, hw]⟩

theorem KeepOne_append {d1 d2 : List Op} (h1 : KeepOne d1) (h2 : KeepOne d2) :
    KeepOne (d1 ++ d2) := by
  intro R O x consts v stack
  obtain ⟨w, hw⟩ := h1 R O x consts v stack
  obtain ⟨u, hu⟩ := h2 R O x consts w stack
  exact ⟨u, by rw [runOps_append, hw, Option.some_bind, hu]⟩

theorem OneMore_push_unary {d : List Op} {op : OpId} (h : OneMore d) (hu : Unary1 op) :
    OneMore (d ++ [(op, -1)]) := by
  intro R O x consts stack
  obtain ⟨v, hv⟩ := h R O x consts stack
  obtain ⟨w, hw⟩ := hu R O consts x v stack
  refine ⟨w, ?_⟩
  rw [runOps_append, hv, Option.some_bind]
  simp only [runOps, hw]

theorem KeepOne_of_OneMore_binary {d : List Op} {op : OpId} (h : OneMore d)
    (hb : Binary1 op) : KeepOne (d ++ [(op, -1)]) := by
  intro R O x consts v stack
  obtain ⟨v2, hv2⟩ := h R O x consts (v :: stack)
  obtain ⟨w, hw⟩ := hb R O consts x v v2 stack
  refine ⟨w, ?_⟩
  rw [runOps_append, hv2, Option.some_bind]
  simp only [runOps, hw]

theorem OneMore_pair_binary {d1 d2 : List Op} {op : OpId} (h1 : OneMore d1)
    (h2 : OneMore d2) (hb : Binary1 op) : OneMore (d1 ++ (d2 ++ [(op, -1)])) := by
  intro R O x consts stack
  obtain ⟨v1, hv1⟩ := h1 R O x consts stack
  obtain ⟨v2, hv2⟩ := h2 R O x consts (v1 :: stack)
  obtain ⟨w, hw⟩ := hb R O consts x v1 v2 stack
  refine ⟨w, ?_⟩
  rw [runOps_append, hv1, Option.some_bind, runOps_append, hv2, Option.some_bind]
  simp only [runOps, hw]

theorem KeepOne_const_pow (k : Int) (v : RVal) :
    ∀ d : List Op, d = [(OpId.constant, k), (OpId.pow, -1)] → KeepOne d := by
  rintro _ rfl R O x consts w stack
  exact ⟨O.pow w (constVal O (consts.getD k.toNat (RVal.lit []))), rfl⟩

theorem Emits1_refl_ops {st st1 : ExprState} (ht : st1.temp = st.temp)
    (hops : st1.ops = st.ops) : EmitsK st st1 :=
  ⟨ht, [], by rw [hops, List.append_nil], KeepOne_nil⟩

theorem EmitsK_refl (st : ExprState) : EmitsK st st :=
  Emits1_refl_ops rfl rfl

theorem Emits1_trans_K {st st1 st2 : ExprState} (h1 : Emits1 st st1)
    (h2 : EmitsK st1 st2) : Emits1 st st2 := by
  obtain ⟨ht1, d1, ho1, hm1⟩ := h1
  obtain ⟨ht2, d2, ho2, hm2⟩ := h2
  exact ⟨ht2.trans ht1, d1 ++ d2, by rw [ho2, ho1, List.append_assoc],
    OneMore_append hm1 hm2⟩

theorem EmitsK_trans_K {st st1 st2 : ExprState} (h1 : EmitsK st st1)
    (h2 : EmitsK st1 st2) : EmitsK st st2 := by
  obtain ⟨ht1, d1, ho1, hm1⟩ := h1
  obtain ⟨ht2, d2, ho2, hm2⟩ := h2
  exact ⟨ht2.trans ht1, d1 ++ d2, by rw [ho2, ho1, List.append_assoc],
    KeepOne_append hm1 hm2⟩

theorem pushOp_ops (st : ExprState) (op : Op) : (pushOp st op).ops = st.ops ++ [op] := rfl

theorem pushOp_temp (st : ExprState) (op : Op) : (pushOp st op).temp = st.temp := rfl

theorem Emits1_push_unary {st st1 : ExprState} {op : OpId} (h : Emits1 st st1)
    (hu : Unary1 op) : Emits1 st (pushOp st1 (op, -1)) := by
  obtain ⟨ht, d, ho, hm⟩ := h
  exact ⟨ht, d ++ [(op, -1)], by rw [pushOp_ops, ho, List.append_assoc],
    OneMore_push_unary hm hu⟩

theorem Emits1_pair_binary {st st1 st2 : ExprState} {op : OpId} (h1 : Emits1 st st1)
    (h2 : Emits1 st1 st2) (hb : Binary1 op) : Emits1 st (pushOp st2 (op, -1)) := by
  obtain ⟨ht1, d1, ho1, hm1⟩ := h1
  obtain ⟨ht2, d2, ho2, hm2⟩ := h2
  refine ⟨ht2.trans ht1, d1 ++ (d2 ++ [(op, -1)]), ?_, OneMore_pair_binary hm1 hm2 hb⟩
  rw [pushOp_ops, ho2, ho1]
  simp [List.append_assoc]

theorem EmitsK_loop_step {st st1 st2 : ExprState} {op : OpId} (h1 : Emits1 st st1)
    (hb : Binary1 op) (h2 : EmitsK (pushOp st1 (op, -1)) st2) : EmitsK st st2 := by
  obtain ⟨ht1, d1, ho1, hm1⟩ := h1
  obtain ⟨ht2, d2, ho2, hm2⟩ := h2
  refine ⟨ht2.trans ht1, (d1 ++ [(op, -1)]) ++ d2, ?_,
    KeepOne_append (KeepOne_of_OneMore_binary hm1 hb) hm2⟩
  rw [ho2, pushOp_ops, ho1]
  simp [List.append_assoc]

theorem Emits1_sup {st st1 : ExprState} {n : ℕ} (h : Emits1 st st1) :
    Emits1 st (pushOp (pushConst st1 (RVal.sup n)) (OpId.pow, -1)) := by
  obtain ⟨ht, d, ho, hm⟩ := h
  refine ⟨ht, d ++ [(OpId.constant, (st1.constants.length : Int)), (OpId.pow, -1)], ?_, ?_⟩
  · show (st1.ops ++ [(OpId.constant, (st1.constants.length : Int))]) ++ [(OpId.pow, -1)] =
      st.ops ++ (d ++ [(OpId.constant, (st1.constants.length : Int)), (OpId.pow, -1)])
    rw [ho]
    simp [List.append_assoc]
  · exact OneMore_append hm (KeepOne_const_pow _ (RVal.sup n) _ rfl)

theorem unary1_of_mem {op : OpId}
    (h : op ∈ [OpId.plus, OpId.minus, OpId.abs, OpId.sqrt, OpId.cbrt, OpId.exp,
      OpId.exp2, OpId.erf, OpId.log, OpId.log2, OpId.log10, OpId.sin, OpId.cos,
      OpId.tan, OpId.asin, OpId.acos, OpId.atan, OpId.sinh, OpId.cosh, OpId.tanh,
      OpId.tofloat, OpId.todouble, OpId.toldouble]) : Unary1 op := by
  fin_cases h <;> · intro R O consts x v stack; exact ⟨_, rfl⟩

theorem binary1_of_mem {op : OpId}
    (h : op ∈ [OpId.add, OpId.sub, OpId.mul, OpId.div, OpId.mod, OpId.atan2,
      OpId.pow, OpId.min, OpId.max, OpId.fmod]) : Binary1 op := by
  fin_cases h <;> · intro R O consts x v1 v2 stack; exact ⟨_, rfl⟩

theorem tryKws_mem {lut : List (String × OpId)} {input r : List Char} {op : OpId}
    (h : tryKws lut input = some (op, r)) : op ∈ lut.map Prod.snd := by
  induction lut with
  | nil => simp [tryKws] at h
  | cons p rest ih =>
    simp only [tryKws] at h
    cases hm : matchStr p.1.toList input with
    | none =>
      rw [hm] at h
      exact List.mem_cons_of_mem _ (ih h)
    | some r1 =>
      rw [hm] at h
      injection h with h1
      injection h1 with h2 h3
      subst h2
      exact List.mem_cons_self _ _

theorem lexUnaryFun_unary1 {input r : List Char} {op : OpId}
    (h : lexUnaryFun input = some (op, r)) : Unary1 op := by
  have hm := tryKws_mem h
  apply unary1_of_mem
  simp only [unaryLut, List.map] at hm
  fin_cases hm <;> decide

theorem lexBinaryFun_binary1 {input r : List Char} {op : OpId}
    (h : lexBinaryFun input = some (op, r)) : Binary1 op := by
  have hm := tryKws_mem h
  apply binary1_of_mem
  simp only [binaryLut, List.map] at hm
  fin_cases hm <;> decide

theorem OneMore_x : OneMore [(OpId.x, -1)] := by
  intro R O x consts stack
  exact ⟨x, rfl⟩

theorem OneMore_y : OneMore [(OpId.y, -1)] := by
  intro R O x consts stack
  exact ⟨O.zero, rfl⟩

theorem OneMore_constant (k : Int) : OneMore [(OpId.constant, k)] := by
  intro R O x consts stack
  exact ⟨_, rfl⟩

theorem pushConst_emits (st : ExprState) (v : RVal) : Emits1 st (pushConst st v) :=
  ⟨rfl, [(OpId.constant, (st.constants.length : Int))], rfl, OneMore_constant _⟩

theorem pushOp_x_emits (st : ExprState) : Emits1 st (pushOp st (OpId.x, -1)) :=
  ⟨rfl, [(OpId.x, -1)], rfl, OneMore_x⟩

theorem pushOp_y_emits (st : ExprState) : Emits1 st (pushOp st (OpId.y, -1)) :=
  ⟨rfl, [(OpId.y, -1)], rfl, OneMore_y⟩

theorem pName_emits {input r : List Char} {st st1 : ExprState}
    (h : pName input st = some (r, st1)) : Emits1 st st1 := by
  simp only [pName] at h
  repeat' split at h
  all_goals first
    | (simp only [Option.some.injEq, Prod.mk.injEq] at h
       obtain ⟨h1, h2⟩ := h
       subst h2
       first
         | exact pushConst_emits st _
         | exact pushOp_x_emits st
         | exact pushOp_y_emits st)
    | simp at h

end Expr

namespace Expr

/-- Every grammar production, on success, appends a program segment with
net stack effect plus one and restores the temporary operator stack;
every star continuation appends a segment that rewrites the stack top in
place. Proved for all rules simultaneously by induction on the fuel. -/
theorem grammarInv : ∀ f : ℕ,
    (∀ input st r st1, pExpr f input st = some (r, st1) → Emits1 st st1) ∧
    (∀ input st r st1, pExprLoop f input st = some (r, st1) → EmitsK st st1) ∧
    (∀ input st r st1, pTerm f input st = some (r, st1) → Emits1 st st1) ∧
    (∀ input st r st1, pTermLoop f input st = some (r, st1) → EmitsK st st1) ∧
    (∀ input st r st1, pSigned2 f input st = some (r, st1) → Emits1 st st1) ∧
    (∀ input st r st1, pFactor f input st = some (r, st1) → Emits1 st st1) ∧
    (∀ input st r st1, pFactorLoop f input st = some (r, st1) → EmitsK st st1) ∧
    (∀ input st r st1, pSigned f input st = some (r, st1) → Emits1 st st1) ∧
    (∀ input st r st1, pTerminal f input st = some (r, st1) → Emits1 st st1) ∧
    (∀ input st r st1, pCall f input st = some (r, st1) → Emits1 st st1) ∧
    (∀ input st r st1, pBinaryCall f input st = some (r, st1) → Emits1 st st1) ∧
    (∀ input st r st1, pUnaryCall f input st = some (r, st1) → Emits1 st st1) := by
  intro f
  induction f with
  | zero =>
    refine ⟨?_, ?_, ?_, ?_, ?_, ?_, ?_, ?_, ?_, ?_, ?_, ?_⟩ <;>
      exact fun input st r st1 h => Option.noConfusion h
  | succ f ih =>
    obtain ⟨ihExpr, ihExprLoop, ihTerm, ihTermLoop, ihSigned2, ihFactor, ihFactorLoop,
      ihSigned, ihTerminal, ihCall, ihBin, ihUn⟩ := ih
    have hbinAdd : Binary1 OpId.add := binary1_of_mem (by decide)
    have hbinSub : Binary1 OpId.sub := binary1_of_mem (by decide)
    have hbinMul : Binary1 OpId.mul := binary1_of_mem (by decide)
    have hbinDiv : Binary1 OpId.div := binary1_of_mem (by decide)
    have hbinMod : Binary1 OpId.mod := binary1_of_mem (by decide)
    have hbinPow : Binary1 OpId.pow := binary1_of_mem (by decide)
    have huMinus : Unary1 OpId.minus := unary1_of_mem (by decide)
    have hExprLoop : ∀ input st r st1,
        pExprLoop (f + 1) input st = some (r, st1) → EmitsK st st1 := by
      intro input st r st1 h
      simp only [pExprLoop] at h
      split at h
      · split at h
        · rename_i heq2
          exact EmitsK_loop_step (ihTerm _ _ _ _ heq2) hbinAdd (ihExprLoop _ _ _ _ h)
        · simp only [Option.some.injEq, Prod.mk.injEq] at h
          obtain ⟨-, h2⟩ := h
          subst h2
          exact EmitsK_refl st
      · split at h
        · rename_i heq2
          exact EmitsK_loop_step (ihTerm _ _ _ _ heq2) hbinSub (ihExprLoop _ _ _ _ h)
        · simp only [Option.some.injEq, Prod.mk.injEq] at h
          obtain ⟨-, h2⟩ := h
          subst h2
          exact EmitsK_refl st
      · simp only [Option.some.injEq, Prod.mk.injEq] at h
        obtain ⟨-, h2⟩ := h
        subst h2
        exact EmitsK_refl st
    have hExpr : ∀ input st r st1,
        pExpr (f + 1) input st = some (r, st1) → Emits1 st st1 := by
      intro input st r st1 h
      simp only [pExpr] at h
      split at h
      · exact absurd h (by simp)
      · rename_i r1 stA heq
        exact Emits1_trans_K (ihTerm _ _ _ _ heq) (ihExprLoop _ _ _ _ h)
    have hTermLoop : ∀ input st r st1,
        pTermLoop (f + 1) input st = some (r, st1) → EmitsK st st1 := by
      intro input st r st1 h
      simp only [pTermLoop] at h
      split at h
      · split at h
        · rename_i heq2
          exact EmitsK_loop_step (ihSigned2 _ _ _ _ heq2) hbinMul (ihTermLoop _ _ _ _ h)
        · simp only [Option.some.injEq, Prod.mk.injEq] at h
          obtain ⟨-, h2⟩ := h
          subst h2
          exact EmitsK_refl st
      · split at h
        · rename_i heq2
          exact EmitsK_loop_step (ihSigned2 _ _ _ _ heq2) hbinDiv (ihTermLoop _ _ _ _ h)
        · simp only [Option.some.injEq, Prod.mk.injEq] at h
          obtain ⟨-, h2⟩ := h
          subst h2
          exact EmitsK_refl st
      · split at h
        · rename_i heq2
          exact EmitsK_loop_step (ihSigned2 _ _ _ _ heq2) hbinMod (ihTermLoop _ _ _ _ h)
        · simp only [Option.some.injEq, Prod.mk.injEq] at h
          obtain ⟨-, h2⟩ := h
          subst h2
          exact EmitsK_refl st
      · simp only [Option.some.injEq, Prod.mk.injEq] at h
        obtain ⟨-, h2⟩ := h
        subst h2
        exact EmitsK_refl st
    have hTerm : ∀ input st r st1,
        pTerm (f + 1) input st = some (r, st1) → Emits1 st st1 := by
      intro input st r st1 h
      simp only [pTerm] at h
      split at h
      · exact absurd h (by simp)
      · rename_i r1 stA heq
        exact Emits1_trans_K (ihSigned2 _ _ _ _ heq) (ihTermLoop _ _ _ _ h)
    have hSigned2 : ∀ input st r st1,
        pSigned2 (f + 1) input st = some (r, st1) → Emits1 st st1 := by
      intro input st r st1 h
      simp only [pSigned2] at h
      split at h
      · split at h
        · rename_i heq
          simp only [Option.some.injEq, Prod.mk.injEq] at h
          obtain ⟨-, h2⟩ := h
          subst h2
          exact Emits1_push_unary (ihSigned2 _ _ _ _ heq) huMinus
        · exact absurd h (by simp)
      · exact ihSigned2 _ _ _ _ h
      · exact ihFactor _ _ _ _ h
    have hSigned : ∀ input st r st1,
        pSigned (f + 1) input st = some (r, st1) → Emits1 st st1 := by
      intro input st r st1 h
      simp only [pSigned] at h
      split at h
      · split at h
        · rename_i heq
          simp only [Option.some.injEq, Prod.mk.injEq] at h
          obtain ⟨-, h2⟩ := h
          subst h2
          exact Emits1_push_unary (ihSigned _ _ _ _ heq) huMinus
        · exact absurd h (by simp)
      · exact ihSigned _ _ _ _ h
      · exact ihTerminal _ _ _ _ h
    have hFactorLoop : ∀ input st r st1,
        pFactorLoop (f + 1) input st = some (r, st1) → EmitsK st st1 := by
      intro input st r st1 h
      simp only [pFactorLoop] at h
      split at h
      · split at h
        · rename_i heq2
          exact EmitsK_loop_step (ihSigned _ _ _ _ heq2) hbinPow (ihFactorLoop _ _ _ _ h)
        · simp only [Option.some.injEq, Prod.mk.injEq] at h
          obtain ⟨-, h2⟩ := h
          subst h2
          exact EmitsK_refl st
      · split at h
        · rename_i heq2
          exact EmitsK_loop_step (ihSigned _ _ _ _ heq2) hbinPow (ihFactorLoop _ _ _ _ h)
        · simp only [Option.some.injEq, Prod.mk.injEq] at h
          obtain ⟨-, h2⟩ := h
          subst h2
          exact EmitsK_refl st
      · simp only [Option.some.injEq, Prod.mk.injEq] at h
        obtain ⟨-, h2⟩ := h
        subst h2
        exact EmitsK_refl st
    have hFactor : ∀ input st r st1,
        pFactor (f + 1) input st = some (r, st1) → Emits1 st st1 := by
      intro input st r st1 h
      simp only [pFactor] at h
      split at h
      · exact absurd h (by simp)
      · rename_i r1 stA heq
        exact Emits1_trans_K (ihTerminal _ _ _ _ heq) (ihFactorLoop _ _ _ _ h)
    have hBin : ∀ input st r st1,
        pBinaryCall (f + 1) input st = some (r, st1) → Emits1 st st1 := by
      intro input st r st1 h
      simp only [pBinaryCall] at h
      split at h
      · exact absurd h (by simp)
      · rename_i op r1 heq0
        split at h
        · split at h
          · rename_i heq1
            split at h
            · split at h
              · rename_i heq2
                split at h
                · simp only [Option.some.injEq, Prod.mk.injEq] at h
                  obtain ⟨-, h2⟩ := h
                  subst h2
                  exact Emits1_pair_binary (ihExpr _ _ _ _ heq1) (ihExpr _ _ _ _ heq2)
                    (lexBinaryFun_binary1 heq0)
                · exact absurd h (by simp)
              · exact absurd h (by simp)
            · exact absurd h (by simp)
          · exact absurd h (by simp)
        · exact absurd h (by simp)
    have hUn : ∀ input st r st1,
        pUnaryCall (f + 1) input st = some (r, st1) → Emits1 st st1 := by
      intro input st r st1 h
      simp only [pUnaryCall] at h
      split at h
      · exact absurd h (by simp)
      · rename_i op r1 heq0
        split at h
        · split at h
          · rename_i heq1
            split at h
            · split at h
              · rename_i u rest heq2
                simp only [Option.some.injEq, Prod.mk.injEq] at h
                obtain ⟨-, h2⟩ := h
                subst h2
                obtain ⟨ht, d, ho, hm⟩ := ihExpr _ _ _ _ heq1
                rw [heq2] at ht
                injection ht with htu htr
                refine ⟨by simpa using htr, d ++ [(u, -1)], ?_, ?_⟩
                · show _ ++ [(u, -1)] = st.ops ++ (d ++ [(u, -1)])
                  rw [ho]
                  show st.ops ++ d ++ [(u, -1)] = _
                  rw [List.append_assoc]
                · subst htu
                  exact OneMore_push_unary hm (lexUnaryFun_unary1 heq0)
              · exact absurd h (by simp)
            · exact absurd h (by simp)
          · exact absurd h (by simp)
        · exact absurd h (by simp)
    have hCall : ∀ input st r st1,
        pCall (f + 1) input st = some (r, st1) → Emits1 st st1 := by
      intro input st r st1 h
      simp only [pCall] at h
      split at h
      · rename_i p heq
        simp only [Option.some.injEq] at h
        subst h
        exact ihBin _ _ _ _ heq
      · exact ihUn _ _ _ _ h
    have hTerminal : ∀ input st r st1,
        pTerminal (f + 1) input st = some (r, st1) → Emits1 st st1 := by
      intro input st r st1 h
      simp only [pTerminal] at h
      split at h
      · exact absurd h (by simp)
      · rename_i r1 stA heq
        have hbase : Emits1 st stA := by
          split at heq
          · rename_i p2 heqc
            simp only [Option.some.injEq] at heq
            subst heq
            exact ihCall _ _ _ _ heqc
          · split at heq
            · rename_i p2 heqn
              simp only [Option.some.injEq] at heq
              subst heq
              exact pName_emits heqn
            · split at heq
              · split at heq
                · rename_i heqe
                  split at heq
                  · simp only [Option.some.injEq, Prod.mk.injEq] at heq
                    obtain ⟨-, h2⟩ := heq
                    subst h2
                    exact ihExpr _ _ _ _ heqe
                  · exact absurd heq (by simp)
                · exact absurd heq (by simp)
              · exact absurd heq (by simp)
        split at h
        · rename_i n r3 heqs
          simp only [Option.some.injEq, Prod.mk.injEq] at h
          obtain ⟨-, h2⟩ := h
          subst h2
          exact Emits1_sup hbase
        · simp only [Option.some.injEq, Prod.mk.injEq] at h
          obtain ⟨-, h2⟩ := h
          subst h2
          exact hbase
    exact ⟨hExpr, hExprLoop, hTerm, hTermLoop, hSigned2, hFactor, hFactorLoop,
      hSigned, hTerminal, hCall, hBin, hUn⟩

end Expr

namespace Expr

/-- C8: every program produced by a successful parse is stack-safe: for
every big-real interpretation and every argument, the evaluator run from
an empty stack never underflows (no opcode pops more than the stack
holds, which is what none of runOps would signal) and finishes with
exactly one value, which eval returns; the assertion in the source
cannot fire on parser-produced programs. -/
theorem C8_parse_eval_safe (f : ℕ) (e e1 : ExprState) (s : List Char)
    (h : parse f e s = (true, e1)) :
    ∀ (R : Type) (O : RealOps R) (x : R), ∃ v : R, eval O e1 x = some v := by
  intro R O x
  simp only [parse] at h
  cases hp : pStmt f s { ops := [], constants := [], temp := e.temp } with
  | none => rw [hp] at h; exact absurd h (by simp)
  | some st1 =>
    rw [hp] at h
    simp only [Prod.mk.injEq] at h
    obtain ⟨-, h2⟩ := h
    subst h2
    unfold pStmt at hp
    split at hp
    · exact absurd hp (by simp)
    · rename_i r0 stA heq
      split at hp
      · simp only [Option.some.injEq] at hp
        subst hp
        obtain ⟨-, d, ho, hm⟩ := (grammarInv f).1 _ _ _ _ heq
        obtain ⟨v, hv⟩ := hm R O x stA.constants []
        refine ⟨v, ?_⟩
        have ho2 : stA.ops = d := by simpa using ho
        unfold eval
        rw [ho2, hv]
      · exact absurd hp (by simp)

/-- C8 witness: a concrete successful parse evaluated over a concrete
instantiation of the big-real operations. -/
theorem C8_witness :
    (parse 12 ({} : ExprState) "2*x^3".toList).1 = true ∧
      ∃ v : ℤ, eval intOps (parse 12 ({} : ExprState) "2*x^3".toList).2 5 = some v := by
  have h : parse 12 ({} : ExprState) "2*x^3".toList =
      (true, (parse 12 ({} : ExprState) "2*x^3".toList).2) := by decide
  exact ⟨by decide, C8_parse_eval_safe 12 {} _ _ h ℤ intOps 5⟩


/-- skipSpaces leaves a string alone when its first character is not a
space character. -/
theorem skipSpaces_cons (c : Char) (l : List Char) (h : isSpace c = false) :
    skipSpaces (c :: l) = c :: l := by
  simp [skipSpaces, h]

/-- When the input starts with neither a minus nor a plus sign, r_signed2
reduces to r_factor directly. -/
theorem pSigned2_no_sign (f : ℕ) (c : Char) (t : List Char) (st : ExprState)
    (h1 : c ≠ '-') (h2 : c ≠ '+') :
    pSigned2 (f + 1) (c :: t) st = pFactor f (c :: t) st := by
  simp only [pSigned2]
  split
  · rename_i t2 heq
    injection heq with hc h
    exact absurd hc h1
  · rename_i t2 heq
    injection heq with hc h
    exact absurd hc h2
  · rfl

/-- C9: the pow operator is left-associative. For any three subexpression
strings a, b and c whose parses as r_terminal resp. r_signed succeed with
the stated remaining inputs and output states (the fuel offsets record the
depth at which each subparse is entered on each side), parsing a^b^c and
parsing (a^b)^c both succeed and both produce the same program, namely the
one with the first pow opcode emitted before the operand of the second, so
eval agrees on the two programs at every argument over any big-real
carrier. -/
theorem C9_pow_left_assoc (g : ℕ) (sa sb sc : List Char) (e st0 stA stB stC : ExprState)
    (hst0 : st0 = { ops := [], constants := [], temp := e.temp })
    (Hsa : ∃ c t, sa = c :: t ∧ isSpace c = false ∧ c ≠ '-' ∧ c ≠ '+')
    (Hsb : ∃ c t, sb = c :: t ∧ isSpace c = false)
    (Hsc : ∃ c t, sc = c :: t ∧ isSpace c = false)
    (HtermL : pTerminal (g + 7) (sa ++ '^' :: (sb ++ '^' :: sc)) st0 =
        some ('^' :: (sb ++ '^' :: sc), stA))
    (HtermR : pTerminal (g + 2) (sa ++ '^' :: (sb ++ ')' :: '^' :: sc)) st0 =
        some ('^' :: (sb ++ ')' :: '^' :: sc), stA))
    (HsbL : pSigned (g + 6) (sb ++ '^' :: sc) stA = some ('^' :: sc, stB))
    (HsbR : pSigned (g + 1) (sb ++ ')' :: '^' :: sc) stA = some (')' :: '^' :: sc, stB))
    (HscL : pSigned (g + 5) sc (pushOp stB (OpId.pow, -1)) = some ([], stC))
    (HscR : pSigned (g + 6) sc (pushOp stB (OpId.pow, -1)) = some ([], stC)) :
    parse (g + 11) e (sa ++ '^' :: (sb ++ '^' :: sc)) =
        (true, pushOp stC (OpId.pow, -1)) ∧
      parse (g + 11) e ('(' :: (sa ++ '^' :: (sb ++ ')' :: '^' :: sc))) =
        (true, pushOp stC (OpId.pow, -1)) ∧
      ∀ (R : Type) (O : RealOps R) (x : R),
        eval O (parse (g + 11) e (sa ++ '^' :: (sb ++ '^' :: sc))).2 x =
          eval O (parse (g + 11) e ('(' :: (sa ++ '^' :: (sb ++ ')' :: '^' :: sc)))).2 x := by
  obtain ⟨ca, ta, rfl, hspa, hma, hpa⟩ := Hsa
  obtain ⟨cb, tb, rfl, hspb⟩ := Hsb
  obtain ⟨cc, tc, rfl, hspc⟩ := Hsc
  have sspL : skipSpaces ((ca :: ta) ++ '^' :: ((cb :: tb) ++ '^' :: (cc :: tc))) =
      (ca :: ta) ++ '^' :: ((cb :: tb) ++ '^' :: (cc :: tc)) :=
    skipSpaces_cons ca _ hspa
  have sspRin : skipSpaces ((ca :: ta) ++ '^' :: ((cb :: tb) ++ ')' :: '^' :: (cc :: tc))) =
      (ca :: ta) ++ '^' :: ((cb :: tb) ++ ')' :: '^' :: (cc :: tc)) :=
    skipSpaces_cons ca _ hspa
  have sspbL : skipSpaces ((cb :: tb) ++ '^' :: (cc :: tc)) =
      (cb :: tb) ++ '^' :: (cc :: tc) :=
    skipSpaces_cons cb _ hspb
  have sspbR : skipSpaces ((cb :: tb) ++ ')' :: '^' :: (cc :: tc)) =
      (cb :: tb) ++ ')' :: '^' :: (cc :: tc) :=
    skipSpaces_cons cb _ hspb
  have sspc : skipSpaces (cc :: tc) = cc :: tc := skipSpaces_cons cc _ hspc
  -- left input chain
  have l3 : pFactorLoop (g + 5) ([] : List Char) (pushOp stC (OpId.pow, -1)) =
      some ([], pushOp stC (OpId.pow, -1)) := rfl
  have l2 : pFactorLoop (g + 6) ('^' :: (cc :: tc)) (pushOp stB (OpId.pow, -1)) =
      some ([], pushOp stC (OpId.pow, -1)) := by
    have e1 : pFactorLoop (g + 6) ('^' :: (cc :: tc)) (pushOp stB (OpId.pow, -1)) =
        match pSigned (g + 5) (skipSpaces (cc :: tc)) (pushOp stB (OpId.pow, -1)) with
        | some (r2, st2) => pFactorLoop (g + 5) r2 (pushOp st2 (OpId.pow, -1))
        | none => some ('^' :: (cc :: tc), pushOp stB (OpId.pow, -1)) := rfl
    rw [e1, sspc, HscL]
    exact l3
  have l1 : pFactorLoop (g + 7) ('^' :: ((cb :: tb) ++ '^' :: (cc :: tc))) stA =
      some ([], pushOp stC (OpId.pow, -1)) := by
    have e1 : pFactorLoop (g + 7) ('^' :: ((cb :: tb) ++ '^' :: (cc :: tc))) stA =
        match pSigned (g + 6) (skipSpaces ((cb :: tb) ++ '^' :: (cc :: tc))) stA with
        | some (r2, st2) => pFactorLoop (g + 6) r2 (pushOp st2 (OpId.pow, -1))
        | none => some ('^' :: ((cb :: tb) ++ '^' :: (cc :: tc)), stA) := rfl
    rw [e1, sspbL, HsbL]
    exact l2
  have lFac : pFactor (g + 8) ((ca :: ta) ++ '^' :: ((cb :: tb) ++ '^' :: (cc :: tc))) st0 =
      some ([], pushOp stC (OpId.pow, -1)) := by
    have e1 : pFactor (g + 8) ((ca :: ta) ++ '^' :: ((cb :: tb) ++ '^' :: (cc :: tc))) st0 =
        match pTerminal (g + 7) ((ca :: ta) ++ '^' :: ((cb :: tb) ++ '^' :: (cc :: tc))) st0 with
        | none => none
        | some (r1, st1) => pFactorLoop (g + 7) r1 st1 := rfl
    rw [e1, HtermL]
    exact l1
  have lS2 : pSigned2 (g + 9) ((ca :: ta) ++ '^' :: ((cb :: tb) ++ '^' :: (cc :: tc))) st0 =
      some ([], pushOp stC (OpId.pow, -1)) :=
    (pSigned2_no_sign (g + 8) ca (ta ++ '^' :: ((cb :: tb) ++ '^' :: (cc :: tc))) st0
      hma hpa).trans lFac
  have lTL : pTermLoop (g + 9) ([] : List Char) (pushOp stC (OpId.pow, -1)) =
      some ([], pushOp stC (OpId.pow, -1)) := rfl
  have lT : pTerm (g + 10) ((ca :: ta) ++ '^' :: ((cb :: tb) ++ '^' :: (cc :: tc))) st0 =
      some ([], pushOp stC (OpId.pow, -1)) := by
    have e1 : pTerm (g + 10) ((ca :: ta) ++ '^' :: ((cb :: tb) ++ '^' :: (cc :: tc))) st0 =
        match pSigned2 (g + 9) ((ca :: ta) ++ '^' :: ((cb :: tb) ++ '^' :: (cc :: tc))) st0 with
        | none => none
        | some (r1, st1) => pTermLoop (g + 9) r1 st1 := rfl
    rw [e1, lS2]
    exact lTL
  have lEL : pExprLoop (g + 10) ([] : List Char) (pushOp stC (OpId.pow, -1)) =
      some ([], pushOp stC (OpId.pow, -1)) := rfl
  have lE : pExpr (g + 11) ((ca :: ta) ++ '^' :: ((cb :: tb) ++ '^' :: (cc :: tc))) st0 =
      some ([], pushOp stC (OpId.pow, -1)) := by
    have e1 : pExpr (g + 11) ((ca :: ta) ++ '^' :: ((cb :: tb) ++ '^' :: (cc :: tc))) st0 =
        match pTerm (g + 10) ((ca :: ta) ++ '^' :: ((cb :: tb) ++ '^' :: (cc :: tc))) st0 with
        | none => none
        | some (r1, st1) => pExprLoop (g + 10) r1 st1 := rfl
    rw [e1, lT]
    exact lEL
  have lStmt : pStmt (g + 11) ((ca :: ta) ++ '^' :: ((cb :: tb) ++ '^' :: (cc :: tc))) st0 =
      some (pushOp stC (OpId.pow, -1)) := by
    have e1 : pStmt (g + 11) ((ca :: ta) ++ '^' :: ((cb :: tb) ++ '^' :: (cc :: tc))) st0 =
        match pExpr (g + 11)
            (skipSpaces ((ca :: ta) ++ '^' :: ((cb :: tb) ++ '^' :: (cc :: tc)))) st0 with
        | none => none
        | some (r, st1) =>
          match skipSpaces r with
          | [] => some st1
          | _ => none := rfl
    rw [e1, sspL, lE]
    rfl
  have parseL : parse (g + 11) e ((ca :: ta) ++ '^' :: ((cb :: tb) ++ '^' :: (cc :: tc))) =
      (true, pushOp stC (OpId.pow, -1)) := by
    have e1 : parse (g + 11) e ((ca :: ta) ++ '^' :: ((cb :: tb) ++ '^' :: (cc :: tc))) =
        match pStmt (g + 11) ((ca :: ta) ++ '^' :: ((cb :: tb) ++ '^' :: (cc :: tc)))
            { ops := [], constants := [], temp := e.temp } with
        | some st1 => (true, st1)
        | none => (false, { ops := [], constants := [], temp := e.temp }) := rfl
    rw [e1, ← hst0, lStmt]
  -- right input chain
  have r4 : pFactorLoop (g + 1) (')' :: '^' :: (cc :: tc)) (pushOp stB (OpId.pow, -1)) =
      some (')' :: '^' :: (cc :: tc), pushOp stB (OpId.pow, -1)) := rfl
  have r3 : pFactorLoop (g + 2) ('^' :: ((cb :: tb) ++ ')' :: '^' :: (cc :: tc))) stA =
      some (')' :: '^' :: (cc :: tc), pushOp stB (OpId.pow, -1)) := by
    have e1 : pFactorLoop (g + 2) ('^' :: ((cb :: tb) ++ ')' :: '^' :: (cc :: tc))) stA =
        match pSigned (g + 1) (skipSpaces ((cb :: tb) ++ ')' :: '^' :: (cc :: tc))) stA with
        | some (r2, st2) => pFactorLoop (g + 1) r2 (pushOp st2 (OpId.pow, -1))
        | none => some ('^' :: ((cb :: tb) ++ ')' :: '^' :: (cc :: tc)), stA) := rfl
    rw [e1, sspbR, HsbR]
    exact r4
  have rFac : pFactor (g + 3) ((ca :: ta) ++ '^' :: ((cb :: tb) ++ ')' :: '^' :: (cc :: tc))) st0 =
      some (')' :: '^' :: (cc :: tc), pushOp stB (OpId.pow, -1)) := by
    have e1 : pFactor (g + 3)
        ((ca :: ta) ++ '^' :: ((cb :: tb) ++ ')' :: '^' :: (cc :: tc))) st0 =
        match pTerminal (g + 2)
            ((ca :: ta) ++ '^' :: ((cb :: tb) ++ ')' :: '^' :: (cc :: tc))) st0 with
        | none => none
        | some (r1, st1) => pFactorLoop (g + 2) r1 st1 := rfl
    rw [e1, HtermR]
    exact r3
  have rS2 : pSigned2 (g + 4)
      ((ca :: ta) ++ '^' :: ((cb :: tb) ++ ')' :: '^' :: (cc :: tc))) st0 =
      some (')' :: '^' :: (cc :: tc), pushOp stB (OpId.pow, -1)) :=
    (pSigned2_no_sign (g + 3) ca (ta ++ '^' :: ((cb :: tb) ++ ')' :: '^' :: (cc :: tc))) st0
      hma hpa).trans rFac
  have rTL : pTermLoop (g + 4) (')' :: '^' :: (cc :: tc)) (pushOp stB (OpId.pow, -1)) =
      some (')' :: '^' :: (cc :: tc), pushOp stB (OpId.pow, -1)) := rfl
  have rT : pTerm (g + 5)
      ((ca :: ta) ++ '^' :: ((cb :: tb) ++ ')' :: '^' :: (cc :: tc))) st0 =
      some (')' :: '^' :: (cc :: tc), pushOp stB (OpId.pow, -1)) := by
    have e1 : pTerm (g + 5)
        ((ca :: ta) ++ '^' :: ((cb :: tb) ++ ')' :: '^' :: (cc :: tc))) st0 =
        match pSigned2 (g + 4)
            ((ca :: ta) ++ '^' :: ((cb :: tb) ++ ')' :: '^' :: (cc :: tc))) st0 with
        | none => none
        | some (r1, st1) => pTermLoop (g + 4) r1 st1 := rfl
    rw [e1, rS2]
    exact rTL
  have rEL : pExprLoop (g + 5) (')' :: '^' :: (cc :: tc)) (pushOp stB (OpId.pow, -1)) =
      some (')' :: '^' :: (cc :: tc), pushOp stB (OpId.pow, -1)) := rfl
  have rE : pExpr (g + 6)
      ((ca :: ta) ++ '^' :: ((cb :: tb) ++ ')' :: '^' :: (cc :: tc))) st0 =
      some (')' :: '^' :: (cc :: tc), pushOp stB (OpId.pow, -1)) := by
    have e1 : pExpr (g + 6)
        ((ca :: ta) ++ '^' :: ((cb :: tb) ++ ')' :: '^' :: (cc :: tc))) st0 =
        match pTerm (g + 5)
            ((ca :: ta) ++ '^' :: ((cb :: tb) ++ ')' :: '^' :: (cc :: tc))) st0 with
        | none => none
        | some (r1, st1) => pExprLoop (g + 5) r1 st1 := rfl
    rw [e1, rT]
    exact rEL
  have rTerm : pTerminal (g + 7)
      ('(' :: ((ca :: ta) ++ '^' :: ((cb :: tb) ++ ')' :: '^' :: (cc :: tc)))) st0 =
      some ('^' :: (cc :: tc), pushOp stB (OpId.pow, -1)) := by
    have e1 : pTerminal (g + 7)
        ('(' :: ((ca :: ta) ++ '^' :: ((cb :: tb) ++ ')' :: '^' :: (cc :: tc)))) st0 =
        (match (match pExpr (g + 6)
                  (skipSpaces ((ca :: ta) ++ '^' :: ((cb :: tb) ++ ')' :: '^' :: (cc :: tc))))
                  st0 with
                | some (r1, st1) =>
                  (match skipSpaces r1 with
                   | ')' :: t2 => some (t2, st1)
                   | _ => none)
                | none => none) with
         | none => none
         | some (r1, st1) =>
           match lexSupFloat (skipSpaces r1) with
           | some (n, r3) => some (r3, pushOp (pushConst st1 (RVal.sup n)) (OpId.pow, -1))
           | none => some (skipSpaces r1, st1)) := rfl
    rw [e1, sspRin, rE]
    rfl
  have rl3 : pFactorLoop (g + 6) ([] : List Char) (pushOp stC (OpId.pow, -1)) =
      some ([], pushOp stC (OpId.pow, -1)) := rfl
  have rLoopOut : pFactorLoop (g + 7) ('^' :: (cc :: tc)) (pushOp stB (OpId.pow, -1)) =
      some ([], pushOp stC (OpId.pow, -1)) := by
    have e1 : pFactorLoop (g + 7) ('^' :: (cc :: tc)) (pushOp stB (OpId.pow, -1)) =
        match pSigned (g + 6) (skipSpaces (cc :: tc)) (pushOp stB (OpId.pow, -1)) with
        | some (r2, st2) => pFactorLoop (g + 6) r2 (pushOp st2 (OpId.pow, -1))
        | none => some ('^' :: (cc :: tc), pushOp stB (OpId.pow, -1)) := rfl
    rw [e1, sspc, HscR]
    exact rl3
  have rFacOut : pFactor (g + 8)
      ('(' :: ((ca :: ta) ++ '^' :: ((cb :: tb) ++ ')' :: '^' :: (cc :: tc)))) st0 =
      some ([], pushOp stC (OpId.pow, -1)) := by
    have e1 : pFactor (g + 8)
        ('(' :: ((ca :: ta) ++ '^' :: ((cb :: tb) ++ ')' :: '^' :: (cc :: tc)))) st0 =
        match pTerminal (g + 7)
            ('(' :: ((ca :: ta) ++ '^' :: ((cb :: tb) ++ ')' :: '^' :: (cc :: tc)))) st0 with
        | none => none
        | some (r1, st1) => pFactorLoop (g + 7) r1 st1 := rfl
    rw [e1, rTerm]
    exact rLoopOut
  have rS2Out : pSigned2 (g + 9)
      ('(' :: ((ca :: ta) ++ '^' :: ((cb :: tb) ++ ')' :: '^' :: (cc :: tc)))) st0 =
      some ([], pushOp stC (OpId.pow, -1)) :=
    (pSigned2_no_sign (g + 8) '('
      ((ca :: ta) ++ '^' :: ((cb :: tb) ++ ')' :: '^' :: (cc :: tc))) st0
      (by decide) (by decide)).trans rFacOut
  have rTOut : pTerm (g + 10)
      ('(' :: ((ca :: ta) ++ '^' :: ((cb :: tb) ++ ')' :: '^' :: (cc :: tc)))) st0 =
      some ([], pushOp stC (OpId.pow, -1)) := by
    have e1 : pTerm (g + 10)
        ('(' :: ((ca :: ta) ++ '^' :: ((cb :: tb) ++ ')' :: '^' :: (cc :: tc)))) st0 =
        match pSigned2 (g + 9)
            ('(' :: ((ca :: ta) ++ '^' :: ((cb :: tb) ++ ')' :: '^' :: (cc :: tc)))) st0 with
        | none => none
        | some (r1, st1) => pTermLoop (g + 9) r1 st1 := rfl
    rw [e1, rS2Out]
    exact lTL
  have rEOut : pExpr (g + 11)
      ('(' :: ((ca :: ta) ++ '^' :: ((cb :: tb) ++ ')' :: '^' :: (cc :: tc)))) st0 =
      some ([], pushOp stC (OpId.pow, -1)) := by
    have e1 : pExpr (g + 11)
        ('(' :: ((ca :: ta) ++ '^' :: ((cb :: tb) ++ ')' :: '^' :: (cc :: tc)))) st0 =
        match pTerm (g + 10)
            ('(' :: ((ca :: ta) ++ '^' :: ((cb :: tb) ++ ')' :: '^' :: (cc :: tc)))) st0 with
        | none => none
        | some (r1, st1) => pExprLoop (g + 10) r1 st1 := rfl
    rw [e1, rTOut]
    exact lEL
  have rStmt : pStmt (g + 11)
      ('(' :: ((ca :: ta) ++ '^' :: ((cb :: tb) ++ ')' :: '^' :: (cc :: tc)))) st0 =
      some (pushOp stC (OpId.pow, -1)) := by
    have e1 : pStmt (g + 11)
        ('(' :: ((ca :: ta) ++ '^' :: ((cb :: tb) ++ ')' :: '^' :: (cc :: tc)))) st0 =
        match pExpr (g + 11)
            (skipSpaces
              ('(' :: ((ca :: ta) ++ '^' :: ((cb :: tb) ++ ')' :: '^' :: (cc :: tc))))) st0 with
        | none => none
        | some (r, st1) =>
          match skipSpaces r with
          | [] => some st1
          | _ => none := rfl
    rw [e1, skipSpaces_cons '(' _ (by decide), rEOut]
    rfl
  have parseR : parse (g + 11) e
      ('(' :: ((ca :: ta) ++ '^' :: ((cb :: tb) ++ ')' :: '^' :: (cc :: tc)))) =
      (true, pushOp stC (OpId.pow, -1)) := by
    have e1 : parse (g + 11) e
        ('(' :: ((ca :: ta) ++ '^' :: ((cb :: tb) ++ ')' :: '^' :: (cc :: tc)))) =
        match pStmt (g + 11)
            ('(' :: ((ca :: ta) ++ '^' :: ((cb :: tb) ++ ')' :: '^' :: (cc :: tc))))
            { ops := [], constants := [], temp := e.temp } with
        | some st1 => (true, st1)
        | none => (false, { ops := [], constants := [], temp := e.temp }) := rfl
    rw [e1, ← hst0, rStmt]
  refine ⟨parseL, parseR, ?_⟩
  intro R O x
  rw [parseL, parseR]

/-- C9 witness: at a = 2, b = 3, c = 4 both parses succeed and return the
identical left-associated program. -/
theorem C9_witness :
    parse 13 { ops := [], constants := [], temp := [] } ['2', '^', '3', '^', '4'] =
        (true, pushOp (pushConst (pushOp (pushConst (pushConst
          { ops := [], constants := [], temp := [] } (RVal.lit ['2'])) (RVal.lit ['3']))
          (OpId.pow, -1)) (RVal.lit ['4'])) (OpId.pow, -1)) ∧
      parse 13 { ops := [], constants := [], temp := [] } ['(', '2', '^', '3', ')', '^', '4'] =
        (true, pushOp (pushConst (pushOp (pushConst (pushConst
          { ops := [], constants := [], temp := [] } (RVal.lit ['2'])) (RVal.lit ['3']))
          (OpId.pow, -1)) (RVal.lit ['4'])) (OpId.pow, -1)) := by
  have h := C9_pow_left_assoc 2 ['2'] ['3'] ['4'] { ops := [], constants := [], temp := [] }
      { ops := [], constants := [], temp := [] }
      (pushConst { ops := [], constants := [], temp := [] } (RVal.lit ['2']))
      (pushConst (pushConst { ops := [], constants := [], temp := [] } (RVal.lit ['2']))
        (RVal.lit ['3']))
      (pushConst (pushOp (pushConst (pushConst { ops := [], constants := [], temp := [] }
        (RVal.lit ['2'])) (RVal.lit ['3'])) (OpId.pow, -1)) (RVal.lit ['4']))
      rfl
      ⟨'2', [], rfl, by decide, by decide, by decide⟩
      ⟨'3', [], rfl, by decide⟩
      ⟨'4', [], rfl, by decide⟩
      (by decide) (by decide) (by decide) (by decide) (by decide) (by decide)
  exact ⟨h.1, h.2.1⟩

end Expr
